import Mathlib

/-!
Verification of the gorilla/css CSS Syntax Level 3 tokenizer and renderer.

The tokenizer (package `tokenizer`) is embedded as pure functions over the
normalized input byte stream, modelled as `List Nat` (each element a byte,
0..255).  The Go `bufio.Reader` with its three-byte peek window and single
byte unread is modelled by explicit list passing: `nextByte` is "take the
head, 0 at EOF", `unreadByte` is "do not consume", and `repeek` is "the
first three bytes, zero-filled past the end of input" — exactly the
semantics of `Tokenizer.repeek`, which zero-fills the window on EOF.
-/

namespace CssTok

/-- Byte-level whitespace: space, tab, newline (`isWhitespace` in the source,
which receives the byte cast to a rune). -/
def isWS (b : Nat) : Bool :=
  b == 32 || b == 9 || b == 10

/-- `isHexDigit` from the source. -/
def isHexDigit (b : Nat) : Bool :=
  (65 ≤ b && b ≤ 70) || (97 ≤ b && b ≤ 102) || (48 ≤ b && b ≤ 57)

/-- ASCII decimal digit (the source writes the comparison inline:
`'0' <= by && by <= '9'`). -/
def isDigit (b : Nat) : Bool :=
  48 ≤ b && b ≤ 57

/-- `isNameStart`: any high byte (≥ `utf8.RuneSelf` = 0x80), underscore,
or ASCII letter. -/
def isNameStart (b : Nat) : Bool :=
  0x80 ≤ b || b == 95 || (65 ≤ b && b ≤ 90) || (97 ≤ b && b ≤ 122)

/-- `isNameCode`: name-start, digit, or `-`. -/
def isNameCode (b : Nat) : Bool :=
  0x80 ≤ b || b == 95 || b == 45 || (65 ≤ b && b ≤ 90) ||
    (97 ≤ b && b ≤ 122) || (48 ≤ b && b ≤ 57)

/-- `isNonPrintable`: 0x00–0x08, 0x0B, 0x0E–0x1F, 0x7F. -/
def isNonPrintable (b : Nat) : Bool :=
  b ≤ 8 || b == 0x0B || (0x0E ≤ b && b ≤ 0x1F) || b == 0x7F

/-- The first byte of the (possibly empty) remaining input, with the
zero-fill-on-EOF convention of `repeek`/`nextByte`. -/
def head0 (l : List Nat) : Nat := l.headD 0

/-- The second byte of the remaining input, zero-filled. -/
def head1 (l : List Nat) : Nat := (l.drop 1).headD 0

/-- The third byte of the remaining input, zero-filled. -/
def head2 (l : List Nat) : Nat := (l.drop 2).headD 0

/-- `isValidEscape` applied to the peek window of `l`: first byte a
backslash, second byte (zero-filled at EOF) not a newline. -/
def validEscape (l : List Nat) : Bool :=
  head0 l == 92 && head1 l != 10

/-- `isStartIdentifier` applied to the 3-byte peek window of `l`:
after an optional leading `-`, a name-start byte or a valid escape. -/
def startsIdentifier (l : List Nat) : Bool :=
  if head0 l == 45 then
    isNameStart (head1 l) || (head1 l == 92 && head2 l != 10)
  else
    isNameStart (head0 l) || validEscape l

/-- `isStartNumber` applied to the 3-byte peek window of `l`: after an
optional sign and an optional `.`, a decimal digit. -/
def startsNumber (l : List Nat) : Bool :=
  if head0 l == 43 || head0 l == 45 then
    if head1 l == 46 then isDigit (head2 l) else isDigit (head1 l)
  else if head0 l == 46 then isDigit (head1 l)
  else isDigit (head0 l)

/-! ### UTF-8 encoding and decoding (Go `unicode/utf8` semantics) -/

/-- `utf8.EncodeRune`: encodes a code point into UTF-8 bytes; surrogates
and out-of-range values encode U+FFFD (EF BF BD). -/
def encodeRune (c : Nat) : List Nat :=
  if c < 0x80 then [c]
  else if c < 0x800 then [0xC0 + c / 64, 0x80 + c % 64]
  else if 0xD800 ≤ c && c ≤ 0xDFFF then [0xEF, 0xBF, 0xBD]
  else if c < 0x10000 then
    [0xE0 + c / 4096, 0x80 + (c / 64) % 64, 0x80 + c % 64]
  else if c ≤ 0x10FFFF then
    [0xF0 + c / 262144, 0x80 + (c / 4096) % 64, 0x80 + (c / 64) % 64,
      0x80 + c % 64]
  else [0xEF, 0xBF, 0xBD]

/-- Is `b` a UTF-8 continuation byte in `[lo, hi]`? -/
def contIn (l : List Nat) (i lo hi : Nat) : Bool :=
  lo ≤ (l.drop i).headD 0 && (l.drop i).headD 0 ≤ hi

/-- Go `utf8.DecodeRune` on the head of the list: returns the decoded code
point and the number of bytes consumed; malformed input decodes to U+FFFD
with size 1 (this is what `bufio.Reader.ReadRune` returns). -/
def decodeRune (l : List Nat) : Nat × Nat :=
  let b0 := head0 l
  if l.isEmpty then (0xFFFD, 0)
  else if b0 < 0x80 then (b0, 1)
  else if 0xC2 ≤ b0 && b0 ≤ 0xDF then
    if contIn l 1 0x80 0xBF then
      ((b0 - 0xC0) * 64 + (head1 l - 0x80), 2)
    else (0xFFFD, 1)
  else if b0 == 0xE0 then
    if contIn l 1 0xA0 0xBF && contIn l 2 0x80 0xBF then
      ((b0 - 0xE0) * 4096 + (head1 l - 0x80) * 64 + (head2 l - 0x80), 3)
    else (0xFFFD, 1)
  else if (0xE1 ≤ b0 && b0 ≤ 0xEC) || b0 == 0xEE || b0 == 0xEF then
    if contIn l 1 0x80 0xBF && contIn l 2 0x80 0xBF then
      ((b0 - 0xE0) * 4096 + (head1 l - 0x80) * 64 + (head2 l - 0x80), 3)
    else (0xFFFD, 1)
  else if b0 == 0xED then
    if contIn l 1 0x80 0x9F && contIn l 2 0x80 0xBF then
      ((b0 - 0xE0) * 4096 + (head1 l - 0x80) * 64 + (head2 l - 0x80), 3)
    else (0xFFFD, 1)
  else if b0 == 0xF0 then
    if contIn l 1 0x90 0xBF && contIn l 2 0x80 0xBF && contIn l 3 0x80 0xBF then
      ((b0 - 0xF0) * 262144 + (head1 l - 0x80) * 4096 +
        (head2 l - 0x80) * 64 + ((l.drop 3).headD 0 - 0x80), 4)
    else (0xFFFD, 1)
  else if 0xF1 ≤ b0 && b0 ≤ 0xF3 then
    if contIn l 1 0x80 0xBF && contIn l 2 0x80 0xBF && contIn l 3 0x80 0xBF then
      ((b0 - 0xF0) * 262144 + (head1 l - 0x80) * 4096 +
        (head2 l - 0x80) * 64 + ((l.drop 3).headD 0 - 0x80), 4)
    else (0xFFFD, 1)
  else if b0 == 0xF4 then
    if contIn l 1 0x80 0x8F && contIn l 2 0x80 0xBF && contIn l 3 0x80 0xBF then
      ((b0 - 0xF0) * 262144 + (head1 l - 0x80) * 4096 +
        (head2 l - 0x80) * 64 + ((l.drop 3).headD 0 - 0x80), 4)
    else (0xFFFD, 1)
  else (0xFFFD, 1)

/-- Numeric value of a single ASCII hex digit byte. -/
def hexVal (b : Nat) : Nat :=
  if 48 ≤ b && b ≤ 57 then b - 48
  else if 65 ≤ b && b ≤ 70 then b - 55
  else if 97 ≤ b && b ≤ 102 then b - 87
  else 0

/-- `strconv.ParseInt(s, 16, 32)` on a digit string known to hold only hex
digits: fails (returns `none`) exactly on the empty string, which is the
only failure mode reachable from the tokenizer (at most 6 hex digits never
overflow 32 bits). -/
def parseHex (l : List Nat) : Option Nat :=
  if l.isEmpty then none
  else if l.all isHexDigit then some (l.foldl (fun acc b => acc * 16 + hexVal b) 0)
  else none

/-! ### Token model (`Token`, `TokenType`, the `Token*Extra` payloads)

One `TokenType` enumeration serves both packages; in both declaration
orders `TokenError` is the first (zero-value) constructor, which is the
only fact about the numbering the code relies on. -/

inductive TokenType where
  | Error | EOF
  | Ident | Function | Delim | AtKeyword | String | Hash
  | Number | Percentage | Dimension | URI | UnicodeRange
  | CDO | CDC | S | Comment
  | BadString | BadURI | BadEscape
  | Includes | DashMatch | PrefixMatch | SuffixMatch | SubstringMatch
  | Column | Colon | Semicolon | Comma
  | OpenBracket | CloseBracket | OpenParen | CloseParen
  | OpenBrace | CloseBrace
  deriving DecidableEq, Repr

/-- `TokenType.StopToken`. -/
def TokenType.stop (t : TokenType) : Bool :=
  t == .Error || t == .EOF || t == .BadEscape || t == .BadString || t == .BadURI

/-- The `.Extra` payload of a token: `nil`, `TokenExtraHash`,
`TokenExtraNumeric`, `TokenExtraUnicodeRange`, or `TokenExtraError`
(the latter holding a `ParseError` with its `Type` and `Message`). -/
inductive TokenExtra where
  | none
  | hash (isIdentifier : Bool)
  | numeric (nonInteger : Bool) (dimension : List Nat)
  | unicodeRange (lo hi : Nat)
  | parseErr (ty : TokenType) (message : String)
  deriving DecidableEq, Repr

/-- `Token`: type, value (Go string = raw bytes), extra payload. -/
structure Token where
  ty : TokenType
  value : List Nat
  extra : TokenExtra
  deriving DecidableEq, Repr

/-- Token with no extra payload. -/
def tok (ty : TokenType) (value : List Nat) : Token := ⟨ty, value, .none⟩

/-- The zero value of the `Token` struct (initial `TokenRenderer.lastToken`). -/
def zeroToken : Token := tok .Error []

/-- The premade EOF token (`premadeTokens['E']`). -/
def eofToken : Token := tok .EOF []

/-! ### §4.3.7 escape consumer -/

/-- `consumeEscapedCP`, entered with the `\` already consumed: returns the
decoded code point and the remaining input.  After a run of hex digits the
byte that terminated the run is consumed when it is whitespace or a zero
byte and pushed back otherwise; a non-hex first byte is decoded as a UTF-8
rune. -/
def consumeEscapedCP (l : List Nat) : Nat × List Nat :=
  match l with
  | [] => (0xFFFD, [])
  | b :: r =>
    if b == 0 then (0xFFFD, r)
    else if isHexDigit b then
      let ds := b :: (r.takeWhile isHexDigit).take 5
      let after := r.drop (ds.length - 1)
      let rest := if isWS (head0 after) || head0 after == 0
        then after.drop 1 else after
      let v := (parseHex ds).getD 0xFFFD
      (if v == 0 || v > 0x10FFFF then 0xFFFD else v, rest)
    else
      let (cp, n) := decodeRune (b :: r)
      (cp, (b :: r).drop n)

theorem length_drop_le (l : List Nat) (n : Nat) : (l.drop n).length ≤ l.length := by
  simp [List.length_drop]

theorem consumeEscapedCP_le (l : List Nat) :
    (consumeEscapedCP l).2.length ≤ l.length := by
  match l with
  | [] => simp [consumeEscapedCP]
  | b :: r =>
    simp only [consumeEscapedCP]
    split
    · simp
    · split
      · dsimp only
        split
        · exact le_trans (length_drop_le _ _)
            (le_trans (length_drop_le _ _) (by simp))
        · exact le_trans (length_drop_le _ _) (by simp)
      · exact length_drop_le _ _

/-! ### §4.3.11 name consumer -/

/-- `consumeName`: append name-code bytes and decoded valid escapes until
neither applies; the terminating byte is pushed back. -/
def consumeName (l : List Nat) : List Nat × List Nat :=
  match l with
  | [] => ([], [])
  | b :: r =>
    if b == 92 then
      if head0 r != 10 then
        -- valid escape: consume the backslash and decode
        (encodeRune (consumeEscapedCP r).1 ++ (consumeName (consumeEscapedCP r).2).1,
          (consumeName (consumeEscapedCP r).2).2)
      else ([], b :: r)
    else if isNameCode b then
      (b :: (consumeName r).1, (consumeName r).2)
    else ([], b :: r)
termination_by l.length
decreasing_by
  · exact Nat.lt_succ_of_le (consumeEscapedCP_le r)
  · simp

theorem consumeName_le (l : List Nat) :
    (consumeName l).2.length ≤ l.length := by
  induction l using consumeName.induct with
  | case1 => simp [consumeName]
  | case2 b r h1 h2 ih =>
    rw [consumeName]
    simp only [h1, h2, if_true]
    calc (consumeName (consumeEscapedCP r).2).2.length
        ≤ (consumeEscapedCP r).2.length := ih
      _ ≤ r.length := consumeEscapedCP_le r
      _ ≤ r.length + 1 := Nat.le_succ _
  | case3 b r h1 h2 =>
    rw [consumeName]; simp [h1, h2]
  | case4 b r h1 h2 ih =>
    rw [consumeName]
    simp only [h1, h2, if_false, if_true]
    exact Nat.le_succ_of_le ih
  | case5 b r h1 h2 =>
    rw [consumeName]; simp [h1, h2]

/-! ### §4.3 whitespace, string, comment, bad-url consumers -/

/-- `consumeWhitespace` discards the maximal run of whitespace; this is the
remaining input after the run. -/
def skipWS (l : List Nat) : List Nat := l.dropWhile isWS

/-- A newline occurs in the discarded whitespace run. -/
def wsSawNL (l : List Nat) : Bool := (l.takeWhile isWS).contains 10

/-- `consumeWhitespace(ch)` with `ch` the whitespace byte already consumed:
emits `S` with value `"\n"` when the run contained a newline, else `" "`. -/
def consumeWhitespaceTok (ch : Nat) (l : List Nat) : Token × List Nat :=
  (tok .S (if ch == 10 || wsSawNL l then [10] else [32]), skipWS l)

/-- `consumeString` with the opening delimiter consumed and `frag` the body
accumulated so far.  The delimiter and end of input (the zero sentinel)
close the string; an unescaped newline is pushed back and yields
`BadString`; a backslash at EOF is dropped, an escaped newline is dropped,
and any other escape decodes to a code point appended as UTF-8. -/
def consumeStringFrom (delim : Nat) (frag : List Nat) (l : List Nat) :
    Token × List Nat :=
  match l with
  | [] => (tok .String frag, [])
  | b :: r =>
    if b == delim || b == 0 then (tok .String frag, r)
    else if b == 10 then
      (⟨.BadString, frag, .parseErr .BadString "unterminated string"⟩, 10 :: r)
    else if b == 92 then
      if head0 r == 0 then
        -- escape at EOF: drop the backslash and continue
        consumeStringFrom delim frag r
      else if head0 r == 10 then
        -- escaped newline: drop both
        consumeStringFrom delim frag (r.drop 1)
      else
        consumeStringFrom delim (frag ++ encodeRune (consumeEscapedCP r).1)
          (consumeEscapedCP r).2
    else consumeStringFrom delim (frag ++ [b]) r
termination_by l.length
decreasing_by
  · simp
  · simp only [List.length_cons]
    exact Nat.lt_succ_of_le (length_drop_le r 1)
  · exact Nat.lt_succ_of_le (consumeEscapedCP_le r)
  · simp

/-- `consumeString` proper (empty accumulator). -/
def consumeString (delim : Nat) (l : List Nat) : Token × List Nat :=
  consumeStringFrom delim [] l

/-- `consumeComment`, entered just past `/*`: accumulate until `*/` or end
of input. -/
def consumeCommentFrom (frag : List Nat) (l : List Nat) : Token × List Nat :=
  match l with
  | [] => (tok .Comment frag, [])
  | b :: r =>
    if b == 42 then
      if head0 r == 47 then (tok .Comment frag, r.drop 1)
      else consumeCommentFrom (frag ++ [b]) r
    else if b == 0 then (tok .Comment frag, r)
    else consumeCommentFrom (frag ++ [b]) r

/-- §4.3.14 `consumeBadURL`: consume until `)` or end of input, decoding
valid escapes (so an escaped `)` does not close the url) and appending
everything else, the backslash of an invalid escape included. -/
def consumeBadURLFrom (frag : List Nat) (l : List Nat) : List Nat × List Nat :=
  match l with
  | [] => (frag, [])
  | b :: r =>
    if b == 41 || b == 0 then (frag, r)
    else if b == 92 then
      if head0 r != 10 then
        consumeBadURLFrom (frag ++ encodeRune (consumeEscapedCP r).1)
          (consumeEscapedCP r).2
      else consumeBadURLFrom (frag ++ [b]) r
    else consumeBadURLFrom (frag ++ [b]) r
termination_by l.length
decreasing_by
  · exact Nat.lt_succ_of_le (consumeEscapedCP_le r)
  · simp
  · simp

/-! ### §4.3.5 URL consumer -/

/-- The character of a byte as a one-character string (`fmt` `%c`). -/
def charStr (b : Nat) : String := String.mk [Char.ofNat b]

/-- The bare (unquoted) part of `consumeURL`: read raw bytes into the value
until `)` or end of input; whitespace must be trailing, quotes, `(` and
non-printables poison the url, escapes must be valid. -/
def consumeURLBare (frag : List Nat) (l : List Nat) : Token × List Nat :=
  match l with
  | [] => (tok .URI frag, [])
  | b :: r =>
    if b == 41 || b == 0 then (tok .URI frag, r)
    else if isWS b then
      if head0 (skipWS r) == 41 || head0 (skipWS r) == 0 then
        (tok .URI frag, (skipWS r).drop 1)
      else
        (⟨.BadURI, frag ++ (consumeBadURLFrom [] (skipWS r)).1,
          .parseErr .BadURI "bare url() with internal whitespace"⟩,
          (consumeBadURLFrom [] (skipWS r)).2)
    else if b == 39 || b == 34 || b == 40 then
      (⟨.BadURI, frag ++ (consumeBadURLFrom [] r).1,
        .parseErr .BadURI
          ("bare url() with illegal character '" ++ charStr b ++ "'")⟩,
        (consumeBadURLFrom [] r).2)
    else if isNonPrintable b then
      (⟨.BadURI, frag ++ (consumeBadURLFrom [] r).1,
        .parseErr .BadURI
          ("bare url() with unprintable character '" ++ toString b ++ "'")⟩,
        (consumeBadURLFrom [] r).2)
    else if b == 92 then
      if head0 r != 10 then
        consumeURLBare (frag ++ encodeRune (consumeEscapedCP r).1)
          (consumeEscapedCP r).2
      else
        -- the backslash was pushed back: bad-url recovery starts on it
        (⟨.BadURI, frag ++ (consumeBadURLFrom [] (92 :: r)).1,
          .parseErr .BadURI "bare url() with invalid escape"⟩,
          (consumeBadURLFrom [] (92 :: r)).2)
    else consumeURLBare (frag ++ [b]) r
termination_by l.length
decreasing_by
  · exact Nat.lt_succ_of_le (consumeEscapedCP_le r)
  · simp

/-- `consumeURL`, entered with the reader just past `url(`. -/
def consumeURL (l : List Nat) : Token × List Nat :=
  if head0 (skipWS l) == 0 then (tok .URI [], skipWS l)
  else if head0 (skipWS l) == 39 || head0 (skipWS l) == 34 then
    let s := consumeString (head0 (skipWS l)) ((skipWS l).drop 1)
    if s.1.ty == .BadString then
      (⟨.BadURI, s.1.value ++ (consumeBadURLFrom [] s.2).1,
        .parseErr .BadURI "unterminated string in url()"⟩,
        (consumeBadURLFrom [] s.2).2)
    else
      if head0 (skipWS s.2) == 41 || head0 (skipWS s.2) == 0 then
        (tok .URI s.1.value, (skipWS s.2).drop 1)
      else
        (⟨.BadURI, s.1.value ++ (consumeBadURLFrom [] (skipWS s.2)).1,
          .parseErr .BadURI "url() with string missing close parenthesis"⟩,
          (consumeBadURLFrom [] (skipWS s.2)).2)
  else consumeURLBare [] (skipWS l)

/-! ### §4.3.12 numeric consumer -/

/-- The push-back at the end of a digit run (`consumeDigits`): the byte
that terminated the run is unread unless it is the zero sentinel, so a
literal zero byte is silently consumed (unreachable after normalization). -/
def dropZeroByte (l : List Nat) : List Nat :=
  match l with
  | [] => []
  | b :: r => if b == 0 then r else b :: r

/-- A `consumeDigits` call starting at the head of `l`: the digits read
and the remaining input after the push-back rule. -/
def numericIntPart (l : List Nat) : List Nat × List Nat :=
  (l.takeWhile isDigit, dropZeroByte (l.dropWhile isDigit))

/-- The optional fraction: a `.` followed by a digit in the peek window
consumes the dot and another digit run. -/
def numericFracPart (l : List Nat) : List Nat × Bool × List Nat :=
  if head0 l == 46 && isDigit (head1 l) then
    (46 :: (l.drop 1).takeWhile isDigit, true,
      dropZeroByte ((l.drop 1).dropWhile isDigit))
  else ([], false, l)

/-- The optional exponent: `e`/`E` with a (possibly signed) digit in the
peek window consumes those 2 or 3 bytes and another digit run. -/
def numericExpPart (l : List Nat) : List Nat × Bool × List Nat :=
  let en : Nat :=
    if head0 l == 101 || head0 l == 69 then
      if (head1 l == 43 || head1 l == 45) && isDigit (head2 l) then 3
      else if isDigit (head1 l) then 2
      else 0
    else 0
  if en == 0 then ([], false, l)
  else (l.take en ++ (l.drop en).takeWhile isDigit, true,
    dropZeroByte ((l.drop en).dropWhile isDigit))

/-- `consumeNumericInner`: optional sign, integer digits, optional
fraction, optional exponent.  Returns the textual representation, the
non-integer flag, and the remaining input. -/
def numericInner (l : List Nat) : List Nat × Bool × List Nat :=
  let sign : List Nat := if head0 l == 43 || head0 l == 45 then [head0 l] else []
  let p1 := numericIntPart (l.drop sign.length)
  let p2 := numericFracPart p1.2
  let p3 := numericExpPart p2.2.2
  (sign ++ p1.1 ++ p2.1 ++ p3.1, p2.2.1 || p3.2.1, p3.2.2)

/-- `consumeNumeric`: the number, then a dimension unit if an identifier
starts, else a percent sign, else a plain number. -/
def consumeNumeric (l : List Nat) : Token × List Nat :=
  let n := numericInner l
  if startsIdentifier n.2.2 then
    (⟨.Dimension, n.1, .numeric n.2.1 (consumeName n.2.2).1⟩, (consumeName n.2.2).2)
  else if head0 n.2.2 == 37 then
    (⟨.Percentage, n.1, .numeric n.2.1 []⟩, n.2.2.drop 1)
  else (⟨.Number, n.1, .numeric n.2.1 []⟩, n.2.2)

/-! ### §4.3.3 ident-like consumer -/

/-- `strings.EqualFold(s, "url")`: within the simple case-folding orbits of
`u`, `r`, `l` only the ASCII upper-case letters fold equal, so this is an
ASCII case-insensitive comparison with the three-byte string `url`. -/
def eqFoldUrl (s : List Nat) : Bool :=
  match s with
  | [a, b, c] =>
    (a == 117 || a == 85) && (b == 114 || b == 82) && (c == 108 || c == 76)
  | _ => false

/-- `consumeIdentish`: a name, then `(` makes it a `Function` (or, for
`url`, hands off to the URL consumer), else an `Ident`. -/
def consumeIdentish (l : List Nat) : Token × List Nat :=
  let n := consumeName l
  if head0 n.2 == 40 then
    if eqFoldUrl n.1 then consumeURL (n.2.drop 1)
    else (tok .Function n.1, n.2.drop 1)
  else (tok .Ident n.1, n.2)

/-! ### §4.3.6 unicode-range consumer -/

/-- The first block of a unicode range: up to `budget` (initially 6) bytes
that are `?`, or hex digits as long as no `?` has been seen.  Returns the
collected bytes, whether a `?` occurred, and the remaining input (the byte
that terminated the block is pushed back). -/
def urRun (budget : Nat) (qm : Bool) (l : List Nat) :
    List Nat × Bool × List Nat :=
  match l with
  | [] => ([], qm, [])
  | c :: r =>
    if budget == 0 then ([], qm, c :: r)
    else if c == 63 then
      ((63 : Nat) :: (urRun (budget - 1) true r).1,
        (urRun (budget - 1) true r).2.1, (urRun (budget - 1) true r).2.2)
    else if !qm && isHexDigit c then
      (c :: (urRun (budget - 1) qm r).1, (urRun (budget - 1) qm r).2.1,
        (urRun (budget - 1) qm r).2.2)
    else ([], qm, c :: r)

/-- An uppercase hex digit byte for a value below 16 (`%X`). -/
def hexDigitB (d : Nat) : Nat := if d < 10 then 48 + d else 55 + d

/-- `%X`: uppercase hexadecimal digits of `n`, no padding. -/
def toHexB (n : Nat) : List Nat :=
  if n < 16 then [hexDigitB n]
  else toHexB (n / 16) ++ [hexDigitB (n % 16)]
termination_by n
decreasing_by
  exact Nat.div_lt_self (by omega) (by omega)

/-- `%04X`: uppercase hex, zero-padded to at least four digits. -/
def hex04 (n : Nat) : List Nat :=
  List.replicate (4 - (toHexB n).length) 48 ++ toHexB n

/-- `TokenExtraUnicodeRange.String`: `U+%04X` for a single code point,
`U+%04X-%04X` for a proper range.  (The method body is absent from the
tokenizer sources provided; the format is the one given by the spec for
§4.8 and by the scanner package's identical method.) -/
def urValue (lo hi : Nat) : List Nat :=
  if lo == hi then [85, 43] ++ hex04 lo
  else [85, 43] ++ hex04 lo ++ [45] ++ hex04 hi

/-- `consumeUnicodeRange`, entered just past `U+`.  `none` models the
`panic` on a `ParseInt` failure (an empty digit string), which the
dispatcher's guard makes unreachable. -/
def consumeUnicodeRange (l : List Nat) : Option (Token × List Nat) :=
  let s := urRun 6 false l
  let sdigits := s.1
  let rest := s.2.2
  if s.2.1 then
    -- question marks: 0-substitution for the start, F-substitution for the end
    match parseHex (sdigits.map fun b => if b == 63 then 48 else b),
        parseHex (sdigits.map fun b => if b == 63 then 70 else b) with
    | some lo, some hi =>
      some (⟨.UnicodeRange, urValue lo hi, .unicodeRange lo hi⟩, rest)
    | _, _ => none
  else if head0 rest == 45 && isHexDigit (head1 rest) then
    let eds := ((rest.drop 1).takeWhile isHexDigit).take 6
    let rest2 := (rest.drop 1).drop eds.length
    match parseHex sdigits, parseHex eds with
    | some lo, some hi =>
      some (⟨.UnicodeRange, urValue lo hi, .unicodeRange lo hi⟩, rest2)
    | _, _ => none
  else
    match parseHex sdigits with
    | some lo => some (⟨.UnicodeRange, urValue lo lo, .unicodeRange lo lo⟩, rest)
    | none => none

/-! ### §4.3.1 the dispatcher

Each `case` of the Go `switch` statement is its own definition; the
dispatcher selects on the consumed first byte.  A case whose guard fails
and which then falls through to the bottom of `consume` is resolved
in place (none of these bytes is a digit or a name-start, so the fall
through always produces the `Delim` token). -/

/-- The premade single-character tokens (`(`, `)`, `,`, `:`, `;`, `[`,
`]`, braces). -/
def singleToken (ch : Nat) : Token :=
  if ch == 40 then tok .OpenParen [40]
  else if ch == 41 then tok .CloseParen [41]
  else if ch == 44 then tok .Comma [44]
  else if ch == 58 then tok .Colon [58]
  else if ch == 59 then tok .Semicolon [59]
  else if ch == 91 then tok .OpenBracket [91]
  else if ch == 93 then tok .CloseBracket [93]
  else if ch == 123 then tok .OpenBrace [123]
  else tok .CloseBrace [125]

/-- Bytes handled by the single-character case. -/
def isSingleCh (ch : Nat) : Bool :=
  ch == 40 || ch == 41 || ch == 44 || ch == 58 || ch == 59 ||
    ch == 91 || ch == 93 || ch == 123 || ch == 125

/-- The premade `$=`, `*=`, `^=`, `~=` tokens. -/
def matchToken (ch : Nat) : Token :=
  if ch == 36 then tok .SuffixMatch [36, 61]
  else if ch == 42 then tok .SubstringMatch [42, 61]
  else if ch == 94 then tok .PrefixMatch [94, 61]
  else tok .Includes [126, 61]

/-- `case '$', '*', '^', '~'`: consume a following `=`, else `Delim`. -/
def consumeEqMatch (ch : Nat) (r : List Nat) : Token × List Nat :=
  if head0 r == 61 then (matchToken ch, r.drop 1) else (tok .Delim [ch], r)

/-- `case '|'`: `|=`, `||`, or `Delim`. -/
def consumePipeTok (r : List Nat) : Token × List Nat :=
  if head0 r == 61 then (tok .DashMatch [124, 61], r.drop 1)
  else if head0 r == 124 then (tok .Column [124, 124], r.drop 1)
  else (tok .Delim [124], r)

/-- `case '#'`: a hash when a name code or valid escape follows, else
`Delim` (the fall-through case). -/
def consumeHashTok (r : List Nat) : Token × List Nat :=
  if isNameCode (head0 r) || validEscape r then
    (⟨.Hash, (consumeName r).1, .hash (startsIdentifier r)⟩, (consumeName r).2)
  else (tok .Delim [35], r)

/-- `case '+'`: the peek window (the `+` pushed back) starting a number
selects the numeric consumer, else `Delim`. -/
def consumePlusTok (r : List Nat) : Token × List Nat :=
  if startsNumber (43 :: r) then consumeNumeric (43 :: r)
  else (tok .Delim [43], r)

/-- `case '-'`: number, identifier, CDC (`-->`), or `Delim`. -/
def consumeMinusTok (r : List Nat) : Token × List Nat :=
  if startsNumber (45 :: r) then consumeNumeric (45 :: r)
  else if startsIdentifier (45 :: r) then consumeIdentish (45 :: r)
  else if r.take 2 == [45, 62] then (tok .CDC [45, 45, 62], r.drop 2)
  else (tok .Delim [45], r)

/-- `case '.'`: number or `Delim`. -/
def consumeDotTok (r : List Nat) : Token × List Nat :=
  if startsNumber (46 :: r) then consumeNumeric (46 :: r)
  else (tok .Delim [46], r)

/-- `case '/'`: comment (past the consumed `*`) or `Delim`. -/
def consumeSlashTok (r : List Nat) : Token × List Nat :=
  if head0 r == 42 then consumeCommentFrom [] (r.drop 1)
  else (tok .Delim [47], r)

/-- `case '<'`: CDO (`<!--`) or `Delim`. -/
def consumeLtTok (r : List Nat) : Token × List Nat :=
  if r.take 3 == [33, 45, 45] then (tok .CDO [60, 33, 45, 45], r.drop 3)
  else (tok .Delim [60], r)

/-- `case '@'`: at-keyword or `Delim`. -/
def consumeAtTok (r : List Nat) : Token × List Nat :=
  if startsIdentifier r then
    (tok .AtKeyword (consumeName r).1, (consumeName r).2)
  else (tok .Delim [64], r)

/-- `case` backslash: a valid escape (the zero-filled peek makes EOF
valid) selects the ident-like consumer; a following newline produces the
premade `BadEscape` token, which carries the value but no extra. -/
def consumeBackslashTok (r : List Nat) : Token × List Nat :=
  if head0 r != 10 then consumeIdentish (92 :: r)
  else (tok .BadEscape [92], r)

/-- `case 'U', 'u'`: `U+` followed by a hex digit or `?` discards the two
bytes and consumes a unicode range; else ident-like (the fall-through:
`U` and `u` are name-start bytes). -/
def consumeUTok (ch : Nat) (r : List Nat) : Option (Token × List Nat) :=
  if head0 r == 43 && (isHexDigit (head1 r) || head1 r == 63) then
    consumeUnicodeRange (r.drop 1)
  else some (consumeIdentish (ch :: r))

/-- The bottom of `consume`: digits, name-start bytes, and the `Delim`
fallback (`string(rune(ch))`). -/
def consumeOtherTok (ch : Nat) (r : List Nat) : Token × List Nat :=
  if isDigit ch then consumeNumeric (ch :: r)
  else if isNameStart ch then consumeIdentish (ch :: r)
  else (tok .Delim (encodeRune ch), r)

/-- The second half of the `switch` in `consume` (`+`, `-`, `.`, `/`,
`<`, `@`, the backslash, `U`/`u`, and the digit/name-start/`Delim`
bottom). -/
def consumeLow (ch : Nat) (r : List Nat) : Option (Token × List Nat) :=
  if ch == 43 then some (consumePlusTok r)
  else if ch == 45 then some (consumeMinusTok r)
  else if ch == 46 then some (consumeDotTok r)
  else if ch == 47 then some (consumeSlashTok r)
  else if ch == 60 then some (consumeLtTok r)
  else if ch == 64 then some (consumeAtTok r)
  else if ch == 92 then some (consumeBackslashTok r)
  else if ch == 85 || ch == 117 then consumeUTok ch r
  else some (consumeOtherTok ch r)

/-- `Tokenizer.consume`: dispatch on the first byte of the remaining
normalized input.  `none` models the one reachable-looking `panic` call in
the consumers (the `ParseInt` failure in `consumeUnicodeRange`); every
other branch is total.  End of input is the zero sentinel of `nextByte`,
and a literal zero byte (impossible after normalization) behaves
identically to it, as in the source. -/
def consume (l : List Nat) : Option (Token × List Nat) :=
  match l with
  | [] => some (eofToken, [])
  | ch :: r =>
    if ch == 0 then some (eofToken, r)
    else if ch == 10 || ch == 9 || ch == 32 then some (consumeWhitespaceTok ch r)
    else if ch == 34 || ch == 39 then some (consumeString ch r)
    else if ch == 35 then some (consumeHashTok r)
    else if isSingleCh ch then some (singleToken ch, r)
    else if ch == 36 || ch == 42 || ch == 94 || ch == 126 then
      some (consumeEqMatch ch r)
    else if ch == 124 then some (consumePipeTok r)
    else consumeLow ch r

/-! ### The input normalizer (`normalize.Transform` in crlf.go)

The `transform.Reader` driver retries on `ErrShortDst` with a larger
destination, so the whole-stream behaviour is a pure function of the
source bytes and the remembered previous byte. -/

/-- `normalize.Transform` denotationally: CR becomes LF, an LF that follows
a CR is dropped, NUL becomes the UTF-8 encoding of U+FFFD, everything else
passes through; `prevCR` records whether the previous source byte was CR. -/
def normalizeFrom (prevCR : Bool) (l : List Nat) : List Nat :=
  match l with
  | [] => []
  | b :: r =>
    if b == 13 then 10 :: normalizeFrom true r
    else if b == 10 then
      if prevCR then normalizeFrom false r else 10 :: normalizeFrom false r
    else if b == 0 then 0xEF :: 0xBF :: 0xBD :: normalizeFrom false r
    else b :: normalizeFrom false r

/-- The normalizer from its `Reset` state (`prev = 0`). -/
def normalize (l : List Nat) : List Nat := normalizeFrom false l

/-! ### The public `Next` loop -/

/-- One call of `Tokenizer.Next` over the remaining normalized input (the
`getD` default is unreachable: `consume` never returns `none`, see
`consume_isSome`). -/
def next (l : List Nat) : Token × List Nat := (consume l).getD (eofToken, l)

/-- The remaining input after `n` calls of `Next`. -/
def stepN : Nat → List Nat → List Nat
  | 0, l => l
  | n + 1, l => stepN n (next l).2

/-- The token returned by the `n+1`-st call of `Next` (0-indexed). -/
def tokenN (n : Nat) (l : List Nat) : Token := (next (stepN n l)).1

/-- The token list produced by calling `Next` until `EOF`, with enough fuel. -/
def tokensFuel : Nat → List Nat → List Token
  | 0, _ => []
  | f + 1, l =>
    if (next l).1.ty == .EOF then [] else (next l).1 :: tokensFuel f (next l).2

/-- All tokens of a normalized input (`l.length + 1` calls always reach
`EOF`, by `next_progress`). -/
def tokensOf (l : List Nat) : List Token := tokensFuel (l.length + 1) l

/-- Tokenize a raw byte input: normalize, then scan until `EOF`. -/
def tokenize (b : List Nat) : List Token := tokensOf (normalize b)

/-- Drop `Comment` tokens (the spec's `T(B)` also drops stop tokens, but a
hypothesis of the round-trip claims is that none occur). -/
def dropComments (ts : List Token) : List Token :=
  ts.filter (fun t => t.ty != .Comment)

/-! ### The renderer (scanner/token.go) -/

/-- `needsHexEscaping(c, mode)`. -/
def needsHexEscaping (c : Nat) (mode : Nat) : Bool :=
  if c < 0x20 then true
  else if 0x80 ≤ c then false
  else if mode == 2 && (c == 101 || c == 69) then true
  else if c == 92 then true
  else if isNameCode c then false
  else true

/-- The ident-mode hex escape `\%X ` (uppercase hex, trailing space). -/
def identHexEsc (c : Nat) : List Nat := 92 :: (toHexB c ++ [32])

/-- The non-first bytes of `escapeIdent`: hex-escape anything that is not
name-code. -/
def escapeTail (s : List Nat) : List Nat :=
  s.flatMap (fun c => if !isNameCode c then identHexEsc c else [c])

/-- `escapeIdent(s, mode)` with `mode` 0 = identifier, 1 = hash name,
2 = dimension unit. -/
def escapeIdent (s : List Nat) (mode : Nat) : List Nat :=
  match s with
  | [] => []
  | c0 :: rest =>
    if mode != 1 then
      (if !isNameStart c0 && c0 != 45 && c0 != 101 && c0 != 69 then
        (if needsHexEscaping c0 mode then identHexEsc c0 else [92, c0])
      else if c0 == 101 || c0 == 69 then
        (if mode == 2 then identHexEsc c0 else [c0])
      else if c0 == 45 then
        (match rest with
         | [] => [92, 45]
         | c1 :: _ => if isNameStart c1 then [45] else [92, 45])
      else [c0]) ++ escapeTail rest
    else escapeTail (c0 :: rest)

/-- `escapeString`: double-quote delimiters; `"`, newline, carriage return
and backslash get their short forms, and other non-printables get a hex
escape written without a trailing space. -/
def escapeString (s : List Nat) : List Nat :=
  34 :: s.flatMap (fun c =>
    if c == 34 then [92, 34]
    else if c == 10 then [92, 48, 65, 32]
    else if c == 13 then [92, 48, 68, 32]
    else if c == 92 then [92, 92]
    else if c < 0x80 && isNonPrintable c then 92 :: toHexB c
    else [c]) ++ [34]

/-- `strings.TrimSuffix(s, quote)` as used for `BadURI` rendering. -/
def trimSuffixQuote (s : List Nat) : List Nat :=
  if s.getLast? == some 34 then s.dropLast else s

/-- `Token.WriteTo`/`Token.Render`: per-token serialization.  Go performs
checked type assertions on `Extra` for `Hash`, `Dimension` and
`UnicodeRange` (panicking on a foreign payload); for totality a missing
payload behaves as the zero value here. -/
def render (t : Token) : List Nat :=
  match t.ty with
  | .Error => []
  | .EOF => []
  | .Ident => escapeIdent t.value 0
  | .AtKeyword => 64 :: escapeIdent t.value 0
  | .Delim => if t.value == [92] then [92, 10] else t.value
  | .Hash =>
    35 :: (match t.extra with
      | .hash true => escapeIdent t.value 0
      | _ => escapeIdent t.value 1)
  | .Percentage => t.value ++ [37]
  | .Dimension =>
    t.value ++ (match t.extra with
      | .numeric _ d => escapeIdent d 2
      | _ => [])
  | .String => escapeString t.value
  | .URI => [117, 114, 108, 40] ++ escapeString t.value ++ [41]
  | .UnicodeRange =>
    match t.extra with
    | .unicodeRange lo hi => urValue lo hi
    | _ => []
  | .Comment => [47, 42] ++ t.value ++ [42, 47]
  | .Function => t.value ++ [40]
  | .BadEscape => [92, 10]
  | .BadString => 34 :: t.value ++ [10]
  | .BadURI => [117, 114, 108, 40] ++ trimSuffixQuote (escapeString t.value) ++ [10, 41]
  | _ => t.value

/-- A key of the `interface` maps driving comment insertion.  Go compares
interface values by dynamic type first: a `TokenType` constant, a `byte`
(`uint8`, as produced by `Value[0]`), and a character literal in a
composite map literal (an untyped rune constant, hence `rune` = `int32`)
are three distinct key species, and keys of different species are never
equal. -/
inductive GoKey where
  | ty (t : TokenType)
  | byte (b : Nat)
  | rune (c : Nat)
  deriving DecidableEq, BEq, Repr

/-- `commentInsertionThruCDC`. -/
def commentInsertionThruCDC : List (GoKey × Bool) :=
  [(.ty .Ident, true), (.ty .Function, true), (.ty .URI, true),
   (.ty .BadURI, true), (.ty .Number, true), (.ty .Percentage, true),
   (.ty .Dimension, true), (.ty .UnicodeRange, true), (.ty .CDC, true),
   (.rune 45, true), (.rune 40, false)]

/-- `commentInsertionRules`: the outer map from previous-token key to the
per-current-token row. -/
def commentInsertionRules : List (GoKey × List (GoKey × Bool)) :=
  [(.ty .Ident,
    [(.ty .Ident, true), (.ty .Function, true), (.ty .URI, true),
     (.ty .BadURI, true), (.rune 45, true), (.ty .Number, true),
     (.ty .Percentage, true), (.ty .Dimension, true),
     (.ty .UnicodeRange, true), (.ty .CDC, true), (.rune 40, true)]),
   (.ty .AtKeyword, commentInsertionThruCDC),
   (.ty .Hash, commentInsertionThruCDC),
   (.ty .Dimension, commentInsertionThruCDC),
   (.rune 35,
    [(.ty .Ident, true), (.ty .Function, true), (.ty .URI, true),
     (.ty .BadURI, true), (.ty .Number, true), (.ty .Percentage, true),
     (.ty .Dimension, true), (.ty .UnicodeRange, true), (.ty .CDC, false),
     (.rune 45, true), (.rune 40, false)]),
   (.rune 45,
    [(.ty .Ident, true), (.ty .Function, true), (.ty .URI, true),
     (.ty .BadURI, true), (.ty .Number, true), (.ty .Percentage, true),
     (.ty .Dimension, true), (.ty .UnicodeRange, true), (.ty .CDC, false),
     (.rune 45, false), (.rune 40, false)]),
   (.ty .Number,
    [(.ty .Ident, true), (.ty .Function, true), (.ty .URI, true),
     (.ty .BadURI, true), (.ty .Number, true), (.ty .Percentage, true),
     (.ty .Dimension, true), (.ty .UnicodeRange, true), (.ty .CDC, false),
     (.rune 45, false), (.rune 40, false)]),
   (.rune 64,
    [(.ty .Ident, true), (.ty .Function, true), (.ty .URI, true),
     (.ty .BadURI, true), (.ty .Number, false), (.ty .Percentage, false),
     (.ty .Dimension, false), (.ty .UnicodeRange, true), (.ty .CDC, false),
     (.rune 45, true), (.rune 40, false)]),
   (.ty .UnicodeRange,
    [(.ty .Ident, true), (.ty .Function, true), (.ty .Number, true),
     (.ty .Percentage, true), (.ty .Dimension, true),
     (.ty .UnicodeRange, false), (.rune 63, true)]),
   (.rune 46,
    [(.ty .Number, true), (.ty .Percentage, true), (.ty .Dimension, true)]),
   (.rune 43,
    [(.ty .Number, true), (.ty .Percentage, true), (.ty .Dimension, true)]),
   (.rune 36, [(.rune 61, true)]),
   (.rune 42, [(.rune 61, true)]),
   (.rune 94, [(.rune 61, true)]),
   (.rune 126, [(.rune 61, true)]),
   (.rune 124, [(.rune 61, true), (.rune 124, true)]),
   (.rune 47, [(.rune 42, true)])]

/-- The renderer key of a token: for `Delim` the first byte of its value
(Go indexes `Value[0]`, defined here as 0 for an empty value), otherwise
the token type. -/
def tokenKey (t : Token) : GoKey :=
  if t.ty == .Delim then .byte (head0 t.value) else .ty t.ty

/-- Does `WriteTokenTo` prepend `/**/` before `t` when the previously
written token was `last`?  A missing outer row or a missing inner entry
defaults to `false` (Go's map zero value). -/
def insertFlag (last t : Token) : Bool :=
  match commentInsertionRules.lookup (tokenKey last) with
  | some row => (row.lookup (tokenKey t)).getD false
  | none => false

/-- `TokenRenderer.WriteTokenTo`: the bytes written and the new
`lastToken`. -/
def writeTokenTo (last t : Token) : List Nat × Token :=
  ((if insertFlag last t then [47, 42, 42, 47] else []) ++ render t, t)

/-- Serialize a token sequence through one `TokenRenderer`, threading
`lastToken`. -/
def renderStreamFrom (last : Token) : List Token → List Nat
  | [] => []
  | t :: ts => (writeTokenTo last t).1 ++ renderStreamFrom t ts

/-- `render_stream`: a fresh `TokenRenderer` (zero-value `lastToken`)
writing the whole sequence. -/
def renderStream (ts : List Token) : List Nat := renderStreamFrom zeroToken ts

/-! ## Helper lemmas

The remaining input of every consumer is a suffix of its input; on a
nonempty input the dispatcher consumes at least one byte. -/

theorem dropWhile_suffix (p : Nat → Bool) (l : List Nat) : l.dropWhile p <:+ l := by
  induction l with
  | nil => simp
  | cons b r ih =>
    by_cases h : p b
    · simpa [List.dropWhile, h] using ih.trans (List.suffix_cons b r)
    · simp [List.dropWhile, h]

theorem skipWS_suffix (l : List Nat) : skipWS l <:+ l := dropWhile_suffix _ l

theorem consumeEscapedCP_suffix (l : List Nat) : (consumeEscapedCP l).2 <:+ l := by
  match l with
  | [] => simp [consumeEscapedCP]
  | b :: r =>
    simp only [consumeEscapedCP]
    split
    · exact List.suffix_cons _ _
    · split
      · dsimp only
        split
        · exact ((List.drop_suffix _ _).trans (List.drop_suffix _ _)).trans
            (List.suffix_cons _ _)
        · exact (List.drop_suffix _ _).trans (List.suffix_cons _ _)
      · exact List.drop_suffix _ _

theorem consumeName_suffix (l : List Nat) : (consumeName l).2 <:+ l := by
  induction l using consumeName.induct with
  | case1 => simp [consumeName]
  | case2 b r h1 h2 ih =>
    rw [consumeName]
    simp only [h1, h2, if_true]
    exact (ih.trans (consumeEscapedCP_suffix r)).trans (List.suffix_cons _ _)
  | case3 b r h1 h2 => rw [consumeName]; simp [h1, h2]
  | case4 b r h1 h2 ih =>
    rw [consumeName]
    simp only [h1, h2, if_false, if_true]
    exact ih.trans (List.suffix_cons _ _)
  | case5 b r h1 h2 => rw [consumeName]; simp [h1, h2]

theorem consumeStringFrom_suffix (delim frag l) :
    (consumeStringFrom delim frag l).2 <:+ l := by
  induction frag, l using consumeStringFrom.induct delim with
  | case1 => simp [consumeStringFrom]
  | case2 frag b r h =>
    rw [consumeStringFrom]
    simp only [h, if_true]
    exact List.suffix_cons _ _
  | case3 frag b r h1 h2 =>
    rw [consumeStringFrom]
    have hb : b = 10 := by simpa using h2
    subst hb
    have hd : ¬ (10 = delim) := fun h => h1 (by simp [h])
    simp [hd]
  | case4 frag b r h1 h2 h3 h4 ih =>
    rw [consumeStringFrom]
    simp only [h1, h2, h3, h4, if_false, if_true]
    exact ih.trans (List.suffix_cons _ _)
  | case5 frag b r h1 h2 h3 h4 h5 ih =>
    rw [consumeStringFrom]
    simp only [h1, h2, h3, h4, h5, if_false, if_true]
    exact (ih.trans (List.drop_suffix _ _)).trans (List.suffix_cons _ _)
  | case6 frag b r h1 h2 h3 h4 h5 ih =>
    rw [consumeStringFrom]
    simp only [h1, h2, h3, h4, h5, if_false, if_true]
    exact (ih.trans (consumeEscapedCP_suffix _)).trans (List.suffix_cons _ _)
  | case7 frag b r h1 h2 h3 ih =>
    rw [consumeStringFrom]
    simp only [h1, h2, h3, if_false]
    exact ih.trans (List.suffix_cons _ _)

theorem consumeCommentFrom_suffix (frag l) :
    (consumeCommentFrom frag l).2 <:+ l := by
  induction frag, l using consumeCommentFrom.induct
  all_goals rw [consumeCommentFrom]
  all_goals simp_all only [if_true, if_false, Bool.false_eq_true]
  · exact (List.drop_suffix _ _).trans (List.suffix_cons _ _)
  · rename_i ih; exact ih.trans (List.suffix_cons _ _)
  · exact List.suffix_cons _ _
  · rename_i ih; exact ih.trans (List.suffix_cons _ _)

theorem consumeBadURLFrom_suffix (frag l) :
    (consumeBadURLFrom frag l).2 <:+ l := by
  induction frag, l using consumeBadURLFrom.induct
  all_goals rw [consumeBadURLFrom]
  all_goals simp_all only [if_true, if_false, Bool.false_eq_true]
  · exact List.suffix_cons _ _
  · rename_i ih
    exact (ih.trans (consumeEscapedCP_suffix _)).trans (List.suffix_cons _ _)
  · rename_i ih; exact ih.trans (List.suffix_cons _ _)
  · rename_i ih; exact ih.trans (List.suffix_cons _ _)

theorem consumeURLBare_suffix (frag l) :
    (consumeURLBare frag l).2 <:+ l := by
  induction frag, l using consumeURLBare.induct
  all_goals rw [consumeURLBare]
  all_goals simp_all only [if_true, if_false, Bool.false_eq_true]
  · exact List.suffix_cons _ _
  · exact ((List.drop_suffix _ _).trans (skipWS_suffix _)).trans
      (List.suffix_cons _ _)
  · exact ((consumeBadURLFrom_suffix _ _).trans (skipWS_suffix _)).trans
      (List.suffix_cons _ _)
  · exact (consumeBadURLFrom_suffix _ _).trans (List.suffix_cons _ _)
  · exact (consumeBadURLFrom_suffix _ _).trans (List.suffix_cons _ _)
  · rename_i ih
    exact (ih.trans (consumeEscapedCP_suffix _)).trans (List.suffix_cons _ _)
  · rename_i h92 _
    refine (consumeBadURLFrom_suffix _ _).trans ?_
    obtain rfl : _ = (92 : Nat) := by simpa using h92
    exact List.suffix_rfl
  · rename_i ih; exact ih.trans (List.suffix_cons _ _)

theorem consumeURL_suffix (l) : (consumeURL l).2 <:+ l := by
  rw [consumeURL]
  split
  · exact skipWS_suffix _
  · split
    · dsimp only
      split
      · exact ((consumeBadURLFrom_suffix _ _).trans
          ((consumeStringFrom_suffix _ _ _).trans
            ((List.drop_suffix _ _).trans (skipWS_suffix _))))
      · split
        · exact ((List.drop_suffix _ _).trans (skipWS_suffix _)).trans
            (((consumeStringFrom_suffix _ _ _).trans
              ((List.drop_suffix _ _).trans (skipWS_suffix _))))
        · exact ((consumeBadURLFrom_suffix _ _).trans (skipWS_suffix _)).trans
            (((consumeStringFrom_suffix _ _ _).trans
              ((List.drop_suffix _ _).trans (skipWS_suffix _))))
    · exact (consumeURLBare_suffix _ _).trans (skipWS_suffix _)

theorem dropZeroByte_suffix (l) : dropZeroByte l <:+ l := by
  match l with
  | [] => simp [dropZeroByte]
  | b :: r =>
    rw [dropZeroByte]
    split
    · exact List.suffix_cons _ _
    · exact List.suffix_rfl

theorem numericIntPart_suffix (l) : (numericIntPart l).2 <:+ l :=
  (dropZeroByte_suffix _).trans (dropWhile_suffix _ _)

theorem numericFracPart_suffix (l) : (numericFracPart l).2.2 <:+ l := by
  rw [numericFracPart]
  split
  · exact (dropZeroByte_suffix _).trans
      ((dropWhile_suffix _ _).trans (List.drop_suffix _ _))
  · exact List.suffix_rfl

theorem numericExpPart_suffix (l) : (numericExpPart l).2.2 <:+ l := by
  rw [numericExpPart]
  repeat' split
  all_goals first
    | exact List.suffix_rfl
    | exact (dropZeroByte_suffix _).trans
        ((dropWhile_suffix _ _).trans (List.drop_suffix _ _))

theorem numericInner_suffix (l) : (numericInner l).2.2 <:+ l := by
  rw [numericInner]
  exact ((numericExpPart_suffix _).trans
    ((numericFracPart_suffix _).trans (numericIntPart_suffix _))).trans
    (List.drop_suffix _ _)

theorem consumeNumeric_suffix (l) : (consumeNumeric l).2 <:+ l := by
  rw [consumeNumeric]
  split
  · exact (consumeName_suffix _).trans (numericInner_suffix _)
  · split
    · exact (List.drop_suffix _ _).trans (numericInner_suffix _)
    · exact numericInner_suffix _

theorem consumeIdentish_suffix (l) : (consumeIdentish l).2 <:+ l := by
  rw [consumeIdentish]
  split
  · split
    · exact ((consumeURL_suffix _).trans (List.drop_suffix _ _)).trans
        (consumeName_suffix _)
    · exact (List.drop_suffix _ _).trans (consumeName_suffix _)
  · exact consumeName_suffix _

theorem urRun_suffix (budget qm l) : (urRun budget qm l).2.2 <:+ l := by
  induction budget, qm, l using urRun.induct with
  | case1 => simp [urRun]
  | case2 budget qm c r h =>
    rw [urRun]; simp [h]
  | case3 budget qm c r h0 h ih =>
    rw [urRun]
    simp only [h0, h, if_false, if_true]
    exact ih.trans (List.suffix_cons _ _)
  | case4 budget qm c r h0 h1 h2 ih =>
    rw [urRun]
    simp only [h0, h1, h2, if_false, if_true]
    exact ih.trans (List.suffix_cons _ _)
  | case5 budget qm c r h0 h1 h2 =>
    rw [urRun]
    simp [h0, h1, h2]

theorem isNameStart_isNameCode (b : Nat) (h : isNameStart b = true) :
    isNameCode b = true := by
  simp only [isNameStart, Bool.or_eq_true, Bool.and_eq_true, beq_iff_eq,
    decide_eq_true_eq] at h
  simp only [isNameCode, Bool.or_eq_true, Bool.and_eq_true, beq_iff_eq,
    decide_eq_true_eq]
  omega

theorem consumeUnicodeRange_suffix (l t rest)
    (h : consumeUnicodeRange l = some (t, rest)) : rest <:+ l := by
  rw [consumeUnicodeRange] at h
  dsimp only at h
  split at h
  · split at h
    · cases h
      exact urRun_suffix _ _ _
    · cases h
  · split at h
    · split at h
      · cases h
        exact ((List.drop_suffix _ _).trans (List.drop_suffix _ _)).trans
          (urRun_suffix _ _ _)
      · cases h
    · split at h
      · cases h
        exact urRun_suffix _ _ _
      · cases h

theorem consumeHashTok_suffix (r) : (consumeHashTok r).2 <:+ r := by
  rw [consumeHashTok]
  split
  · exact consumeName_suffix _
  · exact List.suffix_rfl

theorem consumeEqMatch_suffix (ch r) : (consumeEqMatch ch r).2 <:+ r := by
  rw [consumeEqMatch]
  split
  · exact List.drop_suffix _ _
  · exact List.suffix_rfl

theorem consumePipeTok_suffix (r) : (consumePipeTok r).2 <:+ r := by
  rw [consumePipeTok]
  split_ifs <;> first | exact List.drop_suffix _ _ | exact List.suffix_rfl

theorem consumePlusTok_suffix (r) : (consumePlusTok r).2 <:+ 43 :: r := by
  rw [consumePlusTok]
  split
  · exact consumeNumeric_suffix _
  · exact List.suffix_cons _ _

theorem consumeMinusTok_suffix (r) : (consumeMinusTok r).2 <:+ 45 :: r := by
  rw [consumeMinusTok]
  split_ifs
  · exact consumeNumeric_suffix _
  · exact consumeIdentish_suffix _
  · exact (List.drop_suffix _ _).trans (List.suffix_cons _ _)
  · exact List.suffix_cons _ _

theorem consumeDotTok_suffix (r) : (consumeDotTok r).2 <:+ 46 :: r := by
  rw [consumeDotTok]
  split
  · exact consumeNumeric_suffix _
  · exact List.suffix_cons _ _

theorem consumeSlashTok_suffix (r) : (consumeSlashTok r).2 <:+ r := by
  rw [consumeSlashTok]
  split
  · exact (consumeCommentFrom_suffix _ _).trans (List.drop_suffix _ _)
  · exact List.suffix_rfl

theorem consumeLtTok_suffix (r) : (consumeLtTok r).2 <:+ r := by
  rw [consumeLtTok]
  split
  · exact List.drop_suffix _ _
  · exact List.suffix_rfl

theorem consumeAtTok_suffix (r) : (consumeAtTok r).2 <:+ r := by
  rw [consumeAtTok]
  split
  · exact consumeName_suffix _
  · exact List.suffix_rfl

theorem consumeBackslashTok_suffix (r) : (consumeBackslashTok r).2 <:+ 92 :: r := by
  rw [consumeBackslashTok]
  split
  · exact consumeIdentish_suffix _
  · exact List.suffix_cons _ _

theorem consumeUTok_suffix (ch r t rest) (h : consumeUTok ch r = some (t, rest)) :
    rest <:+ ch :: r := by
  rw [consumeUTok] at h
  split at h
  · exact ((consumeUnicodeRange_suffix _ _ _ h).trans
      (List.drop_suffix _ _)).trans (List.suffix_cons _ _)
  · simp only [Option.some.injEq] at h
    have := congrArg Prod.snd h
    simp only at this
    rw [← this]
    exact consumeIdentish_suffix _

theorem consumeOtherTok_suffix (ch r) : (consumeOtherTok ch r).2 <:+ ch :: r := by
  rw [consumeOtherTok]
  split_ifs
  · exact consumeNumeric_suffix _
  · exact consumeIdentish_suffix _
  · exact List.suffix_cons _ _

theorem some_pair_rest {α β : Type} {x : α × β} {t : α} {rest : β}
    (h : some x = some (t, rest)) : rest = x.2 := by
  cases Option.some.inj h
  rfl

theorem consumeLow_suffix (ch : Nat) (r : List Nat) (t : Token)
    (rest : List Nat) (h : consumeLow ch r = some (t, rest)) :
    rest <:+ ch :: r := by
  rw [consumeLow] at h
  repeat' split at h
  · rename_i hch
    obtain rfl : ch = 43 := by simpa using hch
    rw [some_pair_rest h]; exact consumePlusTok_suffix r
  · rename_i hch
    obtain rfl : ch = 45 := by simpa using hch
    rw [some_pair_rest h]; exact consumeMinusTok_suffix r
  · rename_i hch
    obtain rfl : ch = 46 := by simpa using hch
    rw [some_pair_rest h]; exact consumeDotTok_suffix r
  · rw [some_pair_rest h]
    exact (consumeSlashTok_suffix _).trans (List.suffix_cons _ _)
  · rw [some_pair_rest h]
    exact (consumeLtTok_suffix _).trans (List.suffix_cons _ _)
  · rw [some_pair_rest h]
    exact (consumeAtTok_suffix _).trans (List.suffix_cons _ _)
  · rename_i hch
    obtain rfl : ch = 92 := by simpa using hch
    rw [some_pair_rest h]; exact consumeBackslashTok_suffix r
  · exact consumeUTok_suffix ch r t rest h
  · rw [some_pair_rest h]; exact consumeOtherTok_suffix ch r

theorem consume_suffix (l : List Nat) (t : Token) (rest : List Nat)
    (h : consume l = some (t, rest)) : rest <:+ l := by
  match l with
  | [] =>
    rw [consume] at h
    rw [some_pair_rest h]
  | ch :: r =>
    rw [consume] at h
    repeat' split at h
    · rw [some_pair_rest h]; exact List.suffix_cons _ _
    · rw [some_pair_rest h]; exact (skipWS_suffix _).trans (List.suffix_cons _ _)
    · rw [some_pair_rest h]
      exact (consumeStringFrom_suffix _ _ _).trans (List.suffix_cons _ _)
    · rw [some_pair_rest h]
      exact (consumeHashTok_suffix _).trans (List.suffix_cons _ _)
    · rw [some_pair_rest h]; exact List.suffix_cons _ _
    · rw [some_pair_rest h]
      exact (consumeEqMatch_suffix _ _).trans (List.suffix_cons _ _)
    · rw [some_pair_rest h]
      exact (consumePipeTok_suffix _).trans (List.suffix_cons _ _)
    · exact consumeLow_suffix ch r t rest h

theorem next_suffix (l : List Nat) : (next l).2 <:+ l := by
  rcases hc : consume l with _ | ⟨t, rest⟩
  · simp [next, hc]
  · simp only [next, hc, Option.getD_some]
    exact consume_suffix l t rest hc

/-! ### Strict progress: one call of the dispatcher consumes at least one
byte of a nonempty input. -/

theorem consumeName_lt (l : List Nat)
    (hyp : isNameCode (head0 l) = true ∨ (head0 l = 92 ∧ head1 l ≠ 10)) :
    (consumeName l).2.length < l.length := by
  match l with
  | [] =>
    exfalso
    rcases hyp with h | ⟨h, _⟩ <;> simp [head0, isNameCode] at h
  | b :: r =>
    rw [consumeName]
    by_cases hb : (b == 92) = true
    · obtain rfl : b = 92 := by simpa using hb
      have hr : head0 r ≠ 10 := by
        rcases hyp with h | ⟨_, h2⟩
        · exfalso; simp [isNameCode, head0] at h
        · simpa [head1, head0] using h2
      simp only [hb, if_true, bne_iff_ne, ne_eq, hr, not_false_iff, if_true]
      calc (consumeName (consumeEscapedCP r).2).2.length
          ≤ (consumeEscapedCP r).2.length := consumeName_le _
        _ ≤ r.length := consumeEscapedCP_le r
        _ < r.length + 1 := Nat.lt_succ_self _
    · have hc : isNameCode b = true := by
        rcases hyp with h | ⟨h2, _⟩
        · simpa [head0] using h
        · exact absurd (by simpa [head0] using h2) (by simpa using hb)
      simp only [hb, if_false, hc, if_true]
      exact Nat.lt_succ_of_le (consumeName_le r)

theorem consumeIdentish_lt (l : List Nat)
    (hyp : isNameCode (head0 l) = true ∨ (head0 l = 92 ∧ head1 l ≠ 10)) :
    (consumeIdentish l).2.length < l.length := by
  rw [consumeIdentish]
  split
  · split
    · calc (consumeURL ((consumeName l).2.drop 1)).2.length
          ≤ ((consumeName l).2.drop 1).length :=
            (consumeURL_suffix _).length_le
        _ ≤ (consumeName l).2.length := length_drop_le _ _
        _ < l.length := consumeName_lt l hyp
    · exact Nat.lt_of_le_of_lt (length_drop_le _ _) (consumeName_lt l hyp)
  · exact consumeName_lt l hyp

theorem startsIdentifier_hyp (l : List Nat) (h : startsIdentifier l = true) :
    isNameCode (head0 l) = true ∨ (head0 l = 92 ∧ head1 l ≠ 10) := by
  rw [startsIdentifier] at h
  split at h
  · rename_i h45
    left
    have : head0 l = 45 := by simpa using h45
    simp [isNameCode, this]
  · rcases (by simpa using h : isNameStart (head0 l) = true ∨
        validEscape l = true) with h1 | h2
    · exact Or.inl (isNameStart_isNameCode _ h1)
    · right
      simp only [validEscape, Bool.and_eq_true, beq_iff_eq, bne_iff_ne,
        ne_eq] at h2
      exact ⟨h2.1, h2.2⟩

theorem dropWhile_head_lt (p : Nat → Bool) (b : Nat) (r : List Nat)
    (h : p b = true) : ((b :: r).dropWhile p).length < (b :: r).length := by
  rw [List.dropWhile_cons_of_pos h]
  exact Nat.lt_succ_of_le (dropWhile_suffix p r).length_le

theorem numericInner_lt (l : List Nat) (h : startsNumber l = true) :
    (numericInner l).2.2.length < l.length := by
  rw [numericInner]
  have base : ∀ m : List Nat, (numericExpPart
      (numericFracPart (numericIntPart m).2).2.2).2.2.length ≤ m.length :=
    fun m => ((numericExpPart_suffix _).length_le.trans
      ((numericFracPart_suffix _).length_le.trans
        (numericIntPart_suffix m).length_le))
  rw [startsNumber] at h
  split at h
  · -- a sign byte: at least that byte is consumed
    rename_i hsign
    have hne : l ≠ [] := by
      intro he; subst he; simp [head0] at hsign
    have h1 : (if (head0 l == 43 || head0 l == 45) = true
        then [head0 l] else ([] : List Nat)).length = 1 := by
      simp [hsign]
    rw [h1]
    calc (numericExpPart (numericFracPart
          (numericIntPart (l.drop 1)).2).2.2).2.2.length
        ≤ (l.drop 1).length := base _
      _ < l.length := by
        rw [List.length_drop]
        cases l
        · exact absurd rfl hne
        · simp
  · split at h
    · -- a leading dot with a digit after it: the fraction consumes
      rename_i hsign hdot
      have hne : l ≠ [] := by
        intro he; subst he; simp [head0] at hdot
      have h0 : (if (head0 l == 43 || head0 l == 45) = true
          then [head0 l] else ([] : List Nat)) = [] := by
        simp only [hsign, Bool.false_eq_true, if_false]
      rw [h0]
      simp only [List.length_nil, List.drop_zero]
      have hd46 : head0 l = 46 := by simpa using hdot
      have hint : numericIntPart l = (l.takeWhile isDigit, l) := by
        rw [numericIntPart]
        cases l with
        | nil => exact absurd rfl hne
        | cons b r =>
          have hb : b = 46 := by simpa [head0] using hd46
          subst hb
          rw [List.dropWhile_cons_of_neg (by simp [isDigit]),
            dropZeroByte]
          simp
      rw [hint]
      have hcond : (head0 l == 46 && isDigit (head1 l)) = true := by
        simp [hd46, h]
      have hfrac : numericFracPart l =
          (46 :: (l.drop 1).takeWhile isDigit, true,
            dropZeroByte ((l.drop 1).dropWhile isDigit)) := by
        rw [numericFracPart, if_pos hcond]
      rw [hfrac]
      calc (numericExpPart (dropZeroByte
            ((l.drop 1).dropWhile isDigit))).2.2.length
          ≤ (dropZeroByte ((l.drop 1).dropWhile isDigit)).length :=
            (numericExpPart_suffix _).length_le
        _ ≤ (l.drop 1).length :=
            ((dropZeroByte_suffix _).trans (dropWhile_suffix _ _)).length_le
        _ < l.length := by
          rw [List.length_drop]
          cases l
          · exact absurd rfl hne
          · simp
    · -- a leading digit: the integer part consumes
      rename_i hsign hdot
      have hne : l ≠ [] := by
        intro he; subst he; simp [head0, isDigit] at h
      have h0 : (if (head0 l == 43 || head0 l == 45) = true
          then [head0 l] else ([] : List Nat)) = [] := by
        simp only [hsign, Bool.false_eq_true, if_false]
      rw [h0]
      simp only [List.length_nil, List.drop_zero]
      cases l with
      | nil => exact absurd rfl hne
      | cons b r =>
        have hb : isDigit b = true := by simpa [head0] using h
        calc (numericExpPart (numericFracPart
              (numericIntPart (b :: r)).2).2.2).2.2.length
            ≤ (numericIntPart (b :: r)).2.length :=
              ((numericExpPart_suffix _).length_le.trans
                (numericFracPart_suffix _).length_le)
          _ ≤ ((b :: r).dropWhile isDigit).length :=
              (dropZeroByte_suffix _).length_le
          _ < (b :: r).length := dropWhile_head_lt _ _ _ hb

theorem consumeNumeric_lt (l : List Nat) (h : startsNumber l = true) :
    (consumeNumeric l).2.length < l.length := by
  rw [consumeNumeric]
  split
  · exact Nat.lt_of_le_of_lt
      ((consumeName_suffix _).length_le) (numericInner_lt l h)
  · split
    · exact Nat.lt_of_le_of_lt (length_drop_le _ _) (numericInner_lt l h)
    · exact numericInner_lt l h

/-! ### The unicode-range `ParseInt` never fails

The dispatcher's guard puts a hex digit or `?` first, so the collected
digit strings are nonempty and all-hex, and parsing succeeds. -/

theorem urRun_all (budget : Nat) (qm : Bool) (l : List Nat) :
    (urRun budget qm l).1.all (fun b => isHexDigit b || b == 63) = true := by
  induction budget, qm, l using urRun.induct with
  | case1 => rw [urRun]; rfl
  | case2 budget qm c r h => rw [urRun]; simp [h]
  | case3 budget qm c r h0 h ih =>
    rw [urRun]
    simp [h0, h, ih]
  | case4 budget qm c r h0 h1 h2 ih =>
    rw [urRun]
    simp only [Bool.and_eq_true, Bool.not_eq_true'] at h2
    obtain ⟨hq, hc⟩ := h2
    subst hq
    simp [h0, h1, hc, ih]
  | case5 budget qm c r h0 h1 h2 =>
    rw [urRun]
    simp [h0, h1, h2]

theorem urRun_len (budget : Nat) (qm : Bool) (l : List Nat) :
    (urRun budget qm l).1.length ≤ budget := by
  induction budget, qm, l using urRun.induct with
  | case1 => rw [urRun]; simp
  | case2 budget qm c r h => rw [urRun]; simp [h]
  | case3 budget qm c r h0 h ih =>
    rw [urRun]
    have hb : budget ≠ 0 := by simpa using h0
    simp only [h0, h, if_false, if_true, Bool.false_eq_true, List.length_cons]
    omega
  | case4 budget qm c r h0 h1 h2 ih =>
    rw [urRun]
    have hb : budget ≠ 0 := by simpa using h0
    simp only [h0, h1, if_false, h2, if_true, Bool.false_eq_true,
      List.length_cons]
    omega
  | case5 budget qm c r h0 h1 h2 =>
    rw [urRun]
    simp [h0, h1, h2]

theorem urRun_qm (budget : Nat) (l : List Nat) :
    (urRun budget true l).2.1 = true := by
  induction l generalizing budget with
  | nil => rw [urRun]
  | cons c r ih =>
    rw [urRun]
    by_cases h0 : (budget == 0) = true
    · simp [h0]
    · by_cases h63 : (c == 63) = true
      · simpa [h0, h63] using ih (budget - 1)
      · simp [h0, h63]

theorem urRun_mem63 (budget : Nat) (qm : Bool) (l : List Nat)
    (hx : 63 ∈ (urRun budget qm l).1) : (urRun budget qm l).2.1 = true := by
  induction budget, qm, l using urRun.induct with
  | case1 => rw [urRun] at hx ⊢; simp at hx
  | case2 budget qm c r h => rw [urRun] at hx ⊢; simp [h] at hx
  | case3 budget qm c r h0 h ih =>
    rw [urRun]
    simp only [h0, h, if_false, if_true]
    exact urRun_qm (budget - 1) r
  | case4 budget qm c r h0 h1 h2 ih =>
    rw [urRun] at hx ⊢
    have hcc := h2
    simp only [Bool.and_eq_true, Bool.not_eq_true'] at hcc
    obtain ⟨hq, hc⟩ := hcc
    subst hq
    simp only [h0, h1, if_false, h2, hc, if_true, Bool.false_eq_true,
      Bool.not_false, Bool.true_and] at hx ⊢
    simp only [List.mem_cons] at hx
    rcases hx with h63 | hx
    · exfalso
      rw [← h63] at hc
      simp [isHexDigit] at hc
    · exact ih hx
  | case5 budget qm c r h0 h1 h2 =>
    rw [urRun] at hx
    simp [h0, h1, h2] at hx

theorem urRun_start (b : Nat) (r : List Nat)
    (h : (isHexDigit b || b == 63) = true) :
    (urRun 6 false (b :: r)).1 ≠ [] := by
  rw [urRun]
  rcases (by simpa using h : isHexDigit b = true ∨ b = 63) with h1 | h1
  · by_cases h63 : (b == 63) = true
    · simp [h63]
    · simp [h63, h1]
  · subst h1
    simp

theorem parseHex_isSome (l : List Nat) (hne : l ≠ [])
    (hall : l.all isHexDigit = true) : (parseHex l).isSome := by
  rw [parseHex]
  simp [hne, hall]

theorem mapQ_all_hex (ds : List Nat) (sub : Nat)
    (hsub : isHexDigit sub = true)
    (h : ds.all (fun b => isHexDigit b || b == 63) = true) :
    (ds.map fun b => if b == 63 then sub else b).all isHexDigit = true := by
  simp only [List.all_eq_true] at h ⊢
  intro x hx
  simp only [List.mem_map] at hx
  obtain ⟨b, hb, rfl⟩ := hx
  by_cases h63 : (b == 63) = true
  · simp [h63, hsub]
  · have h2 : isHexDigit b = true := by simpa [h63] using h b hb
    simp [h63, h2]

theorem consumeUnicodeRange_isSome (l : List Nat)
    (h : (isHexDigit (head0 l) || head0 l == 63) = true) :
    (consumeUnicodeRange l).isSome := by
  match l with
  | [] => simp [head0, isHexDigit] at h
  | b :: r =>
    have hne := urRun_start b r (by simpa [head0] using h)
    have hall := urRun_all 6 false (b :: r)
    rw [consumeUnicodeRange]
    dsimp only
    by_cases hqm : (urRun 6 false (b :: r)).2.1 = true
    · rw [if_pos hqm]
      obtain ⟨lo, hlo⟩ := Option.isSome_iff_exists.mp (parseHex_isSome _
        (by simpa using hne) (mapQ_all_hex _ 48 (by decide) hall))
      obtain ⟨hi, hhi⟩ := Option.isSome_iff_exists.mp (parseHex_isSome _
        (by simpa using hne) (mapQ_all_hex _ 70 (by decide) hall))
      rw [hlo, hhi]
      rfl
    · rw [if_neg hqm]
      have hallS : (urRun 6 false (b :: r)).1.all isHexDigit = true := by
        simp only [List.all_eq_true] at hall ⊢
        intro x hx
        rcases (by simpa using hall x hx : isHexDigit x = true ∨ x = 63)
          with h1 | h1
        · exact h1
        · exact absurd (urRun_mem63 6 false (b :: r) (h1 ▸ hx)) hqm
      obtain ⟨lo, hlo⟩ := Option.isSome_iff_exists.mp
        (parseHex_isSome _ hne hallS)
      by_cases hdash : (head0 (urRun 6 false (b :: r)).2.2 == 45 &&
          isHexDigit (head1 (urRun 6 false (b :: r)).2.2)) = true
      · rw [if_pos hdash]
        have hhd : isHexDigit (head0 ((urRun 6 false (b :: r)).2.2.drop 1))
            = true := by
          simp only [Bool.and_eq_true] at hdash
          exact hdash.2
        have heds : (((urRun 6 false (b :: r)).2.2.drop 1).takeWhile
            isHexDigit).take 6 ≠ [] := by
          cases he : (urRun 6 false (b :: r)).2.2.drop 1 with
          | nil =>
            rw [he] at hhd
            simp [head0, isHexDigit] at hhd
          | cons c cr =>
            rw [he] at hhd
            rw [List.takeWhile_cons_of_pos (by simpa [head0] using hhd)]
            simp
        have hallE : ((((urRun 6 false (b :: r)).2.2.drop 1).takeWhile
            isHexDigit).take 6).all isHexDigit = true := by
          simp only [List.all_eq_true]
          intro x hx
          exact List.mem_takeWhile_imp (List.mem_of_mem_take hx)
        obtain ⟨hi, hhi⟩ := Option.isSome_iff_exists.mp
          (parseHex_isSome _ heds hallE)
        rw [hlo, hhi]
        rfl
      · rw [if_neg hdash, hlo]
        rfl

theorem consumeUTok_isSome (ch : Nat) (r : List Nat) :
    (consumeUTok ch r).isSome := by
  rw [consumeUTok]
  split
  · rename_i hg
    simp only [Bool.and_eq_true] at hg
    exact consumeUnicodeRange_isSome (r.drop 1) hg.2
  · rfl

theorem consumeLow_isSome (ch : Nat) (r : List Nat) :
    (consumeLow ch r).isSome := by
  rw [consumeLow]
  repeat' split
  all_goals first | rfl | exact consumeUTok_isSome ch r

theorem consume_isSome (l : List Nat) : (consume l).isSome := by
  match l with
  | [] => rfl
  | ch :: r =>
    rw [consume]
    repeat' split
    all_goals first | rfl | exact consumeLow_isSome ch r

/-! ### Dispatcher progress -/

theorem startsNumber_digit (ch : Nat) (r : List Nat)
    (h : isDigit ch = true) : startsNumber (ch :: r) = true := by
  rw [startsNumber]
  simp only [isDigit, Bool.and_eq_true, decide_eq_true_eq] at h
  have h1 : (head0 (ch :: r) == 43 || head0 (ch :: r) == 45) = false := by
    simp only [head0, List.headD_cons]
    simp only [Bool.or_eq_false_iff, beq_eq_false_iff_ne, ne_eq]
    omega
  have h2 : (head0 (ch :: r) == 46) = false := by
    simp only [head0, List.headD_cons, beq_eq_false_iff_ne, ne_eq]
    omega
  rw [h1, h2]
  simp only [Bool.false_eq_true, if_false]
  simp [head0, isDigit]
  omega

theorem consumeUTok_lt (ch : Nat) (r : List Nat) (t : Token)
    (rest : List Nat) (hch : isNameCode ch = true)
    (h : consumeUTok ch r = some (t, rest)) :
    rest.length < (ch :: r).length := by
  rw [consumeUTok] at h
  split at h
  · calc rest.length ≤ (r.drop 1).length :=
        (consumeUnicodeRange_suffix _ _ _ h).length_le
      _ ≤ r.length := length_drop_le _ _
      _ < r.length + 1 := Nat.lt_succ_self _
  · rw [some_pair_rest h]
    exact consumeIdentish_lt (ch :: r) (Or.inl (by simpa [head0] using hch))

theorem consumeLow_lt (ch : Nat) (r : List Nat) (t : Token)
    (rest : List Nat) (h : consumeLow ch r = some (t, rest)) :
    rest.length < (ch :: r).length := by
  rw [consumeLow] at h
  repeat' split at h
  · -- plus
    rename_i hch
    obtain rfl : ch = 43 := by simpa using hch
    rw [some_pair_rest h]
    rw [consumePlusTok]
    split
    · rename_i hn; exact consumeNumeric_lt _ hn
    · simp
  · -- minus
    rename_i hch
    obtain rfl : ch = 45 := by simpa using hch
    rw [some_pair_rest h]
    rw [consumeMinusTok]
    split_ifs with h1 h2 h3
    · exact consumeNumeric_lt _ h1
    · exact consumeIdentish_lt _ (startsIdentifier_hyp _ h2)
    · exact Nat.lt_succ_of_le (length_drop_le _ _)
    · simp
  · -- dot
    rename_i hch
    obtain rfl : ch = 46 := by simpa using hch
    rw [some_pair_rest h]
    rw [consumeDotTok]
    split
    · rename_i hn; exact consumeNumeric_lt _ hn
    · simp
  · -- slash
    rw [some_pair_rest h]
    exact Nat.lt_succ_of_le (consumeSlashTok_suffix r).length_le
  · -- less-than
    rw [some_pair_rest h]
    exact Nat.lt_succ_of_le (consumeLtTok_suffix r).length_le
  · -- at
    rw [some_pair_rest h]
    exact Nat.lt_succ_of_le (consumeAtTok_suffix r).length_le
  · -- backslash
    rename_i hch
    obtain rfl : ch = 92 := by simpa using hch
    rw [some_pair_rest h]
    rw [consumeBackslashTok]
    split
    · rename_i hnl
      refine consumeIdentish_lt _ (Or.inr ⟨rfl, ?_⟩)
      simpa [head1, head0] using hnl
    · simp
  · -- U / u
    rename_i hch
    refine consumeUTok_lt ch r t rest ?_ h
    rcases (by simpa using hch : ch = 85 ∨ ch = 117) with rfl | rfl <;> decide
  · -- digits, name-start bytes, and the delim fallback
    rw [some_pair_rest h]
    rw [consumeOtherTok]
    split_ifs with h1 h2
    · exact consumeNumeric_lt _ (startsNumber_digit ch r h1)
    · exact consumeIdentish_lt _
        (Or.inl (by simpa [head0] using isNameStart_isNameCode ch h2))
    · simp

theorem consume_lt (l : List Nat) (t : Token) (rest : List Nat)
    (hne : l ≠ []) (h : consume l = some (t, rest)) :
    rest.length < l.length := by
  match l with
  | [] => exact absurd rfl hne
  | ch :: r =>
    rw [consume] at h
    repeat' split at h
    · rw [some_pair_rest h]; simp
    · rw [some_pair_rest h]
      exact Nat.lt_succ_of_le (skipWS_suffix r).length_le
    · rw [some_pair_rest h]
      exact Nat.lt_succ_of_le (consumeStringFrom_suffix _ _ _).length_le
    · rw [some_pair_rest h]
      exact Nat.lt_succ_of_le (consumeHashTok_suffix r).length_le
    · rw [some_pair_rest h]; simp
    · rw [some_pair_rest h]
      exact Nat.lt_succ_of_le (consumeEqMatch_suffix ch r).length_le
    · rw [some_pair_rest h]
      exact Nat.lt_succ_of_le (consumePipeTok_suffix r).length_le
    · exact consumeLow_lt ch r t rest h

theorem next_lt (l : List Nat) (hne : l ≠ []) :
    (next l).2.length < l.length := by
  rcases hc : consume l with _ | ⟨t, rest⟩
  · have := consume_isSome l
    rw [hc] at this
    simp at this
  · simp only [next, hc, Option.getD_some]
    exact consume_lt l t rest hne hc

/-! ### Classification of the produced tokens

`tokenFacts` collects what each non-EOF dispatcher branch guarantees:
the token is not `EOF`, a `BadString`/`BadURI` token carries its
`ParseError` extra, and a `UnicodeRange` token carries 24-bit bounds. -/

def tokenFacts (t : Token) : Prop :=
  t.ty ≠ .EOF ∧
  (t.ty = .BadString → t.extra = .parseErr .BadString "unterminated string") ∧
  (t.ty = .BadURI → ∃ m, t.extra = .parseErr .BadURI m) ∧
  (t.ty = .UnicodeRange →
    ∃ lo hi, t.extra = .unicodeRange lo hi ∧ lo ≤ 0xFFFFFF ∧ hi ≤ 0xFFFFFF)

theorem hexVal_lt (b : Nat) : hexVal b < 16 := by
  rw [hexVal]
  split_ifs with h1 h2 h3 <;>
    simp_all only [Bool.and_eq_true, decide_eq_true_eq] <;> omega

theorem foldlHex_lt (ds : List Nat) (acc : Nat) :
    ds.foldl (fun a b => a * 16 + hexVal b) acc < (acc + 1) * 16 ^ ds.length := by
  induction ds generalizing acc with
  | nil => simp
  | cons b r ih =>
    simp only [List.foldl_cons, List.length_cons]
    calc r.foldl (fun a b => a * 16 + hexVal b) (acc * 16 + hexVal b)
        < (acc * 16 + hexVal b + 1) * 16 ^ r.length := ih _
      _ ≤ (acc + 1) * 16 ^ (r.length + 1) := by
          have hb := hexVal_lt b
          have : acc * 16 + hexVal b + 1 ≤ (acc + 1) * 16 := by omega
          calc (acc * 16 + hexVal b + 1) * 16 ^ r.length
              ≤ (acc + 1) * 16 * 16 ^ r.length :=
                Nat.mul_le_mul_right _ this
            _ = (acc + 1) * 16 ^ (r.length + 1) := by ring

theorem parseHex_le (ds : List Nat) (v : Nat) (h : parseHex ds = some v)
    (hlen : ds.length ≤ 6) : v ≤ 0xFFFFFF := by
  rw [parseHex] at h
  split_ifs at h
  have hv : v = ds.foldl (fun a b => a * 16 + hexVal b) 0 := by
    exact (Option.some.inj h).symm
  have := foldlHex_lt ds 0
  have hpow : 16 ^ ds.length ≤ 16 ^ 6 :=
    Nat.pow_le_pow_right (by omega) hlen
  subst hv
  have hlt : ds.foldl (fun a b => a * 16 + hexVal b) 0 < 0xFFFFFF + 1 := by
    calc ds.foldl (fun a b => a * 16 + hexVal b) 0
        < 1 * 16 ^ ds.length := by simpa using this
      _ ≤ 16 ^ 6 := by simpa using hpow
      _ = 0xFFFFFF + 1 := by norm_num
  omega

theorem tf_unicodeRange (l : List Nat) (t : Token) (rest : List Nat)
    (h : consumeUnicodeRange l = some (t, rest)) : tokenFacts t := by
  have hlen := urRun_len 6 false l
  rw [consumeUnicodeRange] at h
  dsimp only at h
  split at h
  · rcases hp : parseHex ((urRun 6 false l).1.map fun b =>
        if b == 63 then 48 else b) with _ | lo
    · rw [hp] at h; cases h
    · rcases hq : parseHex ((urRun 6 false l).1.map fun b =>
          if b == 63 then 70 else b) with _ | hi
      · rw [hp, hq] at h; cases h
      · rw [hp, hq] at h
        obtain ⟨rfl, -⟩ : t = _ ∧ rest = _ := by
          simpa using (Option.some.inj h).symm
        refine ⟨by simp, by simp, by simp, fun _ => ⟨lo, hi, rfl, ?_, ?_⟩⟩
        · exact parseHex_le _ _ hp (by simpa using hlen)
        · exact parseHex_le _ _ hq (by simpa using hlen)
  · split at h
    · rcases hp : parseHex (urRun 6 false l).1 with _ | lo
      · rw [hp] at h; cases h
      · rcases hq : parseHex ((((urRun 6 false l).2.2.drop 1).takeWhile
            isHexDigit).take 6) with _ | hi
        · rw [hp, hq] at h; cases h
        · rw [hp, hq] at h
          obtain ⟨rfl, -⟩ : t = _ ∧ rest = _ := by
            simpa using (Option.some.inj h).symm
          refine ⟨by simp, by simp, by simp, fun _ => ⟨lo, hi, rfl, ?_, ?_⟩⟩
          · exact parseHex_le _ _ hp hlen
          · exact parseHex_le _ _ hq (by
              refine le_trans (List.length_take_le _ _) (by omega))
    · rcases hp : parseHex (urRun 6 false l).1 with _ | lo
      · rw [hp] at h; cases h
      · rw [hp] at h
        obtain ⟨rfl, -⟩ : t = _ ∧ rest = _ := by
          simpa using (Option.some.inj h).symm
        refine ⟨by simp, by simp, by simp, fun _ => ⟨lo, lo, rfl, ?_, ?_⟩⟩
        · exact parseHex_le _ _ hp hlen
        · exact parseHex_le _ _ hp hlen

theorem tf_tok (ty : TokenType) (v : List Nat) (h1 : ty ≠ .EOF)
    (h2 : ty ≠ .BadString) (h3 : ty ≠ .BadURI) (h4 : ty ≠ .UnicodeRange) :
    tokenFacts (tok ty v) := by
  exact ⟨h1, fun h => absurd h h2, fun h => absurd h h3, fun h => absurd h h4⟩

theorem tf_ws (ch : Nat) (l : List Nat) :
    tokenFacts (consumeWhitespaceTok ch l).1 := by
  rw [consumeWhitespaceTok]
  exact tf_tok _ _ (by decide) (by decide) (by decide) (by decide)

theorem tf_stringFrom (d : Nat) (f l : List Nat) :
    tokenFacts (consumeStringFrom d f l).1 := by
  induction f, l using consumeStringFrom.induct d with
  | case1 f =>
    rw [consumeStringFrom]
    exact tf_tok _ _ (by decide) (by decide) (by decide) (by decide)
  | case2 f b r h =>
    rw [consumeStringFrom]
    simp only [h, if_true]
    exact tf_tok _ _ (by decide) (by decide) (by decide) (by decide)
  | case3 f b r h1 h2 =>
    rw [consumeStringFrom]
    simp only [h1, h2, if_false, if_true, Bool.false_eq_true]
    exact ⟨by simp, fun _ => rfl, by simp, by simp⟩
  | case4 f b r h1 h2 h3 h4 ih =>
    rw [consumeStringFrom]
    simp only [h1, h2, h3, h4, if_false, if_true, Bool.false_eq_true]
    exact ih
  | case5 f b r h1 h2 h3 h4 h5 ih =>
    rw [consumeStringFrom]
    simp only [h1, h2, h3, h4, h5, if_false, if_true, Bool.false_eq_true]
    exact ih
  | case6 f b r h1 h2 h3 h4 h5 ih =>
    rw [consumeStringFrom]
    simp only [h1, h2, h3, h4, h5, if_false, if_true, Bool.false_eq_true]
    exact ih
  | case7 f b r h1 h2 h3 ih =>
    rw [consumeStringFrom]
    simp only [h1, h2, h3, if_false, Bool.false_eq_true]
    exact ih

theorem tf_comment (f l : List Nat) :
    tokenFacts (consumeCommentFrom f l).1 := by
  induction f, l using consumeCommentFrom.induct
  all_goals rw [consumeCommentFrom]
  all_goals simp_all only [if_true, if_false, Bool.false_eq_true]
  all_goals exact tf_tok _ _ (by decide) (by decide) (by decide) (by decide)

theorem tf_urlBare (f l : List Nat) :
    tokenFacts (consumeURLBare f l).1 := by
  induction f, l using consumeURLBare.induct
  all_goals rw [consumeURLBare]
  all_goals simp_all only [if_true, if_false, Bool.false_eq_true]
  all_goals first
    | exact tf_tok _ _ (by decide) (by decide) (by decide) (by decide)
    | exact ⟨by simp, by simp, fun _ => ⟨_, rfl⟩, by simp⟩

theorem tf_url (l : List Nat) : tokenFacts (consumeURL l).1 := by
  rw [consumeURL]
  split
  · exact tf_tok _ _ (by decide) (by decide) (by decide) (by decide)
  · split
    · dsimp only
      split
      · exact ⟨by simp, by simp, fun _ => ⟨_, rfl⟩, by simp⟩
      · split
        · exact tf_tok _ _ (by decide) (by decide) (by decide) (by decide)
        · exact ⟨by simp, by simp, fun _ => ⟨_, rfl⟩, by simp⟩
    · exact tf_urlBare _ _

theorem tf_numeric (l : List Nat) : tokenFacts (consumeNumeric l).1 := by
  rw [consumeNumeric]
  split
  · exact ⟨by simp, by simp, by simp, by simp⟩
  · split
    · exact ⟨by simp, by simp, by simp, by simp⟩
    · exact ⟨by simp, by simp, by simp, by simp⟩

theorem tf_identish (l : List Nat) : tokenFacts (consumeIdentish l).1 := by
  rw [consumeIdentish]
  split
  · split
    · exact tf_url _
    · exact tf_tok _ _ (by decide) (by decide) (by decide) (by decide)
  · exact tf_tok _ _ (by decide) (by decide) (by decide) (by decide)

theorem tf_hash (r : List Nat) : tokenFacts (consumeHashTok r).1 := by
  rw [consumeHashTok]
  split
  · exact ⟨by simp, by simp, by simp, by simp⟩
  · exact tf_tok _ _ (by decide) (by decide) (by decide) (by decide)

theorem tf_single (ch : Nat) : tokenFacts (singleToken ch) := by
  rw [singleToken]
  split_ifs <;>
    exact tf_tok _ _ (by decide) (by decide) (by decide) (by decide)

theorem tf_eqMatch (ch : Nat) (r : List Nat) :
    tokenFacts (consumeEqMatch ch r).1 := by
  rw [consumeEqMatch]
  split
  · rw [matchToken]
    split_ifs <;>
      exact tf_tok _ _ (by decide) (by decide) (by decide) (by decide)
  · exact tf_tok _ _ (by decide) (by decide) (by decide) (by decide)

theorem tf_pipe (r : List Nat) : tokenFacts (consumePipeTok r).1 := by
  rw [consumePipeTok]
  split_ifs <;>
    exact tf_tok _ _ (by decide) (by decide) (by decide) (by decide)

theorem tf_low (ch : Nat) (r : List Nat) (t : Token) (rest : List Nat)
    (h : consumeLow ch r = some (t, rest)) : tokenFacts t := by
  rw [consumeLow] at h
  repeat' split at h
  · rw [show t = (consumePlusTok r).1 from (congrArg Prod.fst (Option.some.inj h)).symm]
    rw [consumePlusTok]
    split
    · exact tf_numeric _
    · exact tf_tok _ _ (by decide) (by decide) (by decide) (by decide)
  · rw [show t = (consumeMinusTok r).1 from (congrArg Prod.fst (Option.some.inj h)).symm]
    rw [consumeMinusTok]
    split_ifs
    · exact tf_numeric _
    · exact tf_identish _
    · exact tf_tok _ _ (by decide) (by decide) (by decide) (by decide)
    · exact tf_tok _ _ (by decide) (by decide) (by decide) (by decide)
  · rw [show t = (consumeDotTok r).1 from (congrArg Prod.fst (Option.some.inj h)).symm]
    rw [consumeDotTok]
    split
    · exact tf_numeric _
    · exact tf_tok _ _ (by decide) (by decide) (by decide) (by decide)
  · rw [show t = (consumeSlashTok r).1 from (congrArg Prod.fst (Option.some.inj h)).symm]
    rw [consumeSlashTok]
    split
    · exact tf_comment _ _
    · exact tf_tok _ _ (by decide) (by decide) (by decide) (by decide)
  · rw [show t = (consumeLtTok r).1 from (congrArg Prod.fst (Option.some.inj h)).symm]
    rw [consumeLtTok]
    split <;>
      exact tf_tok _ _ (by decide) (by decide) (by decide) (by decide)
  · rw [show t = (consumeAtTok r).1 from (congrArg Prod.fst (Option.some.inj h)).symm]
    rw [consumeAtTok]
    split <;>
      exact tf_tok _ _ (by decide) (by decide) (by decide) (by decide)
  · rw [show t = (consumeBackslashTok r).1 from
      (congrArg Prod.fst (Option.some.inj h)).symm]
    rw [consumeBackslashTok]
    split
    · exact tf_identish _
    · exact tf_tok _ _ (by decide) (by decide) (by decide) (by decide)
  · rw [consumeUTok] at h
    split at h
    · exact tf_unicodeRange _ _ _ h
    · rw [show t = (consumeIdentish (ch :: r)).1 from
        (congrArg Prod.fst (Option.some.inj h)).symm]
      exact tf_identish _
  · rw [show t = (consumeOtherTok ch r).1 from
      (congrArg Prod.fst (Option.some.inj h)).symm]
    rw [consumeOtherTok]
    split_ifs
    · exact tf_numeric _
    · exact tf_identish _
    · exact tf_tok _ _ (by decide) (by decide) (by decide) (by decide)

/-- Every token the dispatcher produces is either the `EOF` token (only
at end of input or on the zero sentinel) or satisfies `tokenFacts`. -/
theorem consume_facts (l : List Nat) (t : Token) (rest : List Nat)
    (h : consume l = some (t, rest)) :
    (t = eofToken ∧ (l = [] ∨ head0 l = 0)) ∨ tokenFacts t := by
  match l with
  | [] =>
    rw [consume] at h
    exact Or.inl ⟨(congrArg Prod.fst (Option.some.inj h)).symm, Or.inl rfl⟩
  | ch :: r =>
    rw [consume] at h
    repeat' split at h
    · rename_i hch
      refine Or.inl ⟨(congrArg Prod.fst (Option.some.inj h)).symm, Or.inr ?_⟩
      simpa [head0] using hch
    · refine Or.inr ?_
      rw [show t = (consumeWhitespaceTok ch r).1 from (congrArg Prod.fst (Option.some.inj h)).symm]
      exact tf_ws ch r
    · refine Or.inr ?_
      rw [show t = (consumeString ch r).1 from (congrArg Prod.fst (Option.some.inj h)).symm]
      exact tf_stringFrom ch [] r
    · refine Or.inr ?_
      rw [show t = (consumeHashTok r).1 from (congrArg Prod.fst (Option.some.inj h)).symm]
      exact tf_hash r
    · refine Or.inr ?_
      rw [show t = (singleToken ch, r).1 from (congrArg Prod.fst (Option.some.inj h)).symm]
      exact tf_single ch
    · refine Or.inr ?_
      rw [show t = (consumeEqMatch ch r).1 from (congrArg Prod.fst (Option.some.inj h)).symm]
      exact tf_eqMatch ch r
    · refine Or.inr ?_
      rw [show t = (consumePipeTok r).1 from (congrArg Prod.fst (Option.some.inj h)).symm]
      exact tf_pipe r
    · exact Or.inr (tf_low ch r t rest h)

/-! ### The token stream: eventual EOF and its idempotence -/

theorem next_nil : next [] = (eofToken, []) := rfl

theorem stepN_nil (k : Nat) : stepN k [] = [] := by
  induction k with
  | zero => rfl
  | succ n ih => simpa [stepN, next_nil] using ih

theorem stepN_reach (k : Nat) (l : List Nat) (h : l.length ≤ k) :
    stepN k l = [] := by
  induction k generalizing l with
  | zero =>
    have : l = [] := List.length_eq_zero.mp (Nat.le_zero.mp h)
    simpa [stepN] using this
  | succ n ih =>
    rcases l with _ | ⟨b, r⟩
    · exact stepN_nil (n + 1)
    · rw [stepN]
      refine ih _ ?_
      have := next_lt (b :: r) (by simp)
      simp only [List.length_cons] at h this
      omega

theorem stepN_add (a b : Nat) (l : List Nat) :
    stepN (a + b) l = stepN b (stepN a l) := by
  induction a generalizing l with
  | zero => rw [Nat.zero_add]; rfl
  | succ n ih =>
    have : n + 1 + b = (n + b) + 1 := by omega
    rw [this, stepN, stepN, ih]

theorem next_no_zero (l : List Nat) (h : (0 : Nat) ∉ l) :
    (0 : Nat) ∉ (next l).2 :=
  fun hx => h ((next_suffix l).subset hx)

theorem stepN_no_zero (k : Nat) (l : List Nat) (h : (0 : Nat) ∉ l) :
    (0 : Nat) ∉ stepN k l := by
  induction k generalizing l with
  | zero => exact h
  | succ n ih => exact ih _ (next_no_zero l h)

theorem next_eof_nil (l : List Nat) (hz : (0 : Nat) ∉ l)
    (h : (next l).1.ty = .EOF) : l = [] := by
  rcases hc : consume l with _ | ⟨t, rest⟩
  · have := consume_isSome l
    rw [hc] at this
    simp at this
  · rw [next, hc, Option.getD_some] at h
    rcases consume_facts l t rest hc with ⟨_, hl | hl⟩ | hf
    · exact hl
    · cases hll : l with
      | nil => rfl
      | cons b r =>
        exfalso
        rw [hll] at hl
        simp only [head0, List.headD_cons] at hl
        exact hz (by rw [hll, hl]; simp)
    · exact absurd h hf.1

theorem normalize_no_zero (prevCR : Bool) (l : List Nat) :
    (0 : Nat) ∉ normalizeFrom prevCR l := by
  induction l generalizing prevCR with
  | nil => simp [normalizeFrom]
  | cons b r ih =>
    rw [normalizeFrom]
    by_cases h13 : (b == 13) = true
    · simp only [h13, if_true, List.mem_cons]
      rintro (h0 | h0)
      · omega
      · exact ih _ h0
    · by_cases h10 : (b == 10) = true
      · simp only [h13, h10, if_false, if_true, Bool.false_eq_true]
        split
        · exact ih _
        · simp only [List.mem_cons]
          rintro (h0 | h0)
          · omega
          · exact ih _ h0
      · by_cases h0b : (b == 0) = true
        · simp only [h13, h10, h0b, if_false, if_true, Bool.false_eq_true]
          simp only [List.mem_cons]
          rintro (h0 | h0 | h0 | h0)
          · omega
          · omega
          · omega
          · exact ih _ h0
        · simp only [h13, h10, h0b, if_false, Bool.false_eq_true]
          simp only [List.mem_cons]
          rintro (h0 | h0)
          · exact absurd h0.symm (by simpa using h0b)
          · exact ih _ h0

/-! ### The unterminated-string boundary case (§4.4) -/

/-- The scan of `consumeString` runs to the end of input: the input holds
no closing delimiter, no unescaped newline, and no zero byte, scanning
with the same escape steps as the consumer.  (A trailing backslash is
dropped and still ends at EOF.) -/
def strHitsEOF (delim : Nat) (l : List Nat) : Bool :=
  match l with
  | [] => true
  | b :: r =>
    if b == delim || b == 0 then false
    else if b == 10 then false
    else if b == 92 then
      if r.isEmpty then true
      else if head0 r == 0 then false
      else if head0 r == 10 then strHitsEOF delim (r.drop 1)
      else strHitsEOF delim (consumeEscapedCP r).2
    else strHitsEOF delim r
termination_by l.length
decreasing_by
  · simp only [List.length_cons]
    exact Nat.lt_succ_of_le (length_drop_le r 1)
  · exact Nat.lt_succ_of_le (consumeEscapedCP_le r)
  · simp

/-- The body `consumeString` accumulates: raw bytes, escaped newlines and
backslashes-at-EOF dropped, escapes decoded into UTF-8. -/
def strBody (delim : Nat) (l : List Nat) : List Nat :=
  match l with
  | [] => []
  | b :: r =>
    if b == delim || b == 0 then []
    else if b == 10 then []
    else if b == 92 then
      if head0 r == 0 then strBody delim r
      else if head0 r == 10 then strBody delim (r.drop 1)
      else encodeRune (consumeEscapedCP r).1 ++
        strBody delim (consumeEscapedCP r).2
    else b :: strBody delim r
termination_by l.length
decreasing_by
  · simp
  · simp only [List.length_cons]
    exact Nat.lt_succ_of_le (length_drop_le r 1)
  · exact Nat.lt_succ_of_le (consumeEscapedCP_le r)
  · simp

theorem consumeStringFrom_eof (d : Nat) (f l : List Nat)
    (h : strHitsEOF d l = true) :
    consumeStringFrom d f l = (tok .String (f ++ strBody d l), []) := by
  induction f, l using consumeStringFrom.induct d with
  | case1 f =>
    rw [consumeStringFrom, strBody]
    simp
  | case2 f b r hb =>
    rw [strHitsEOF] at h
    simp [hb] at h
  | case3 f b r h1 h2 =>
    rw [strHitsEOF] at h
    simp [h1, h2] at h
  | case4 f b r h1 h2 h3 h4 ih =>
    rw [strHitsEOF] at h
    simp only [h1, h2, h3, h4, if_false, if_true, Bool.false_eq_true] at h
    rcases he : r.isEmpty with _ | _
    · rw [he] at h
      simp at h
    · have hr : r = [] := by simpa using he
      subst hr
      rw [consumeStringFrom, strBody]
      simp only [h1, h2, h3, h4, if_false, if_true, Bool.false_eq_true]
      rw [consumeStringFrom, strBody]
      simp
  | case5 f b r h1 h2 h3 h4 h5 ih =>
    rw [consumeStringFrom, strBody]
    simp only [h1, h2, h3, h4, h5, if_false, if_true, Bool.false_eq_true]
    refine (ih ?_)
    rw [strHitsEOF] at h
    have hre : r.isEmpty = false := by
      cases r with
      | nil => simp [head0] at h5
      | cons c cr => rfl
    simpa [h1, h2, h3, h4, h5, hre] using h
  | case6 f b r h1 h2 h3 h4 h5 ih =>
    rw [consumeStringFrom, strBody]
    simp only [h1, h2, h3, h4, h5, if_false, if_true, Bool.false_eq_true]
    rw [ih ?_]
    · simp
    · rw [strHitsEOF] at h
      have hre : r.isEmpty = false := by
        cases r with
        | nil => simp [head0] at h4
        | cons c cr => rfl
      simpa [h1, h2, h3, h4, h5, hre] using h
  | case7 f b r h1 h2 h3 ih =>
    rw [consumeStringFrom, strBody]
    simp only [h1, h2, h3, if_false, Bool.false_eq_true]
    rw [ih ?_]
    · simp
    · rw [strHitsEOF] at h
      simpa [h1, h2, h3] using h

/-! ### The normalizer as the spec words it (refinement target for the
normalization claim) -/

/-- Modelled from the spec's words: each CRLF pair and each lone CR maps
to a single LF, each zero byte becomes EF BF BD, and every other byte is
unchanged. -/
def normalizeSpec (l : List Nat) : List Nat :=
  match l with
  | [] => []
  | b :: r =>
    if b == 13 then
      if head0 r == 10 then 10 :: normalizeSpec (r.drop 1)
      else 10 :: normalizeSpec r
    else if b == 0 then 0xEF :: 0xBF :: 0xBD :: normalizeSpec r
    else b :: normalizeSpec r
termination_by l.length
decreasing_by
  · simp only [List.length_cons]
    exact Nat.lt_succ_of_le (length_drop_le r 1)
  · simp
  · simp
  · simp

theorem normalizeFrom_true (l : List Nat) :
    normalizeFrom true l =
      if head0 l == 10 then normalizeFrom false (l.drop 1)
      else normalizeFrom false l := by
  cases l with
  | nil => simp [normalizeFrom, head0]
  | cons b r =>
    by_cases h10 : (b == 10) = true
    · obtain rfl : b = 10 := by simpa using h10
      rw [normalizeFrom]
      simp [head0, normalizeFrom]
    · rw [normalizeFrom]
      by_cases h13 : (b == 13) = true
      · simp only [h13, if_true, head0, List.headD_cons, h10,
          Bool.false_eq_true, if_false]
        rw [normalizeFrom]
        simp [h13]
      · by_cases h0 : (b == 0) = true
        · simp only [h13, h10, h0, if_false, if_true, head0,
            List.headD_cons, Bool.false_eq_true]
          rw [normalizeFrom]
          simp [h13, h10, h0]
        · simp only [h13, h10, h0, if_false, head0, List.headD_cons,
            Bool.false_eq_true]
          rw [normalizeFrom]
          simp [h13, h10, h0]

theorem normalize_eq_spec (l : List Nat) : normalize l = normalizeSpec l := by
  rw [normalize]
  induction l using normalizeSpec.induct with
  | case1 => rw [normalizeFrom, normalizeSpec]
  | case2 b r h13 h10 ih =>
    obtain rfl : b = 13 := by simpa using h13
    rw [normalizeFrom, normalizeSpec]
    simp only [beq_self_eq_true, if_true, h10]
    rw [normalizeFrom_true, if_pos h10, ih]
  | case3 b r h13 h10 ih =>
    obtain rfl : b = 13 := by simpa using h13
    rw [normalizeFrom, normalizeSpec]
    simp only [beq_self_eq_true, if_true, h10, Bool.false_eq_true, if_false]
    rw [normalizeFrom_true, if_neg (by simp [h10]), ih]
  | case4 b r h13 h0 ih =>
    obtain rfl : b = 0 := by simpa using h0
    rw [normalizeFrom, normalizeSpec]
    simp [ih]
  | case5 b r h13 h0 ih =>
    rw [normalizeFrom, normalizeSpec]
    by_cases h10 : (b == 10) = true
    · obtain rfl : b = 10 := by simpa using h10
      simp [ih]
    · simp only [h13, h0, h10, Bool.false_eq_true, if_false]
      rw [ih]

/-! ### Comment-insertion lookups -/

/-- A key that is not a `byte` key.  Every key in the insertion tables is
a `ty` or `rune` key, so `byte` lookups (the key species `tokenKey` gives
a `Delim` token) always miss. -/
def notByteKey (k : GoKey) : Bool :=
  match k with
  | .byte _ => false
  | _ => true

theorem lookup_byte_none (row : List (GoKey × Bool))
    (h : ∀ p ∈ row, notByteKey p.1 = true) (b : Nat) :
    row.lookup (GoKey.byte b) = none := by
  induction row with
  | nil => rfl
  | cons p rest ih =>
    obtain ⟨k, v⟩ := p
    have h1 : notByteKey k = true := h (k, v) (List.mem_cons_self _ _)
    have hne : (GoKey.byte b == k) = false := by
      cases k with
      | ty t => rfl
      | byte c => simp [notByteKey] at h1
      | rune c => rfl
    rw [List.lookup, hne]
    exact ih fun q hq => h q (List.mem_cons_of_mem _ hq)

theorem insertFlag_eq (last t : Token) :
    insertFlag last t =
      (((commentInsertionRules.lookup (tokenKey last)).getD []).lookup
        (tokenKey t)).getD false := by
  rw [insertFlag]
  cases commentInsertionRules.lookup (tokenKey last) with
  | none => rfl
  | some row => rfl

theorem rules_row_no_byte_keys (t : TokenType) :
    ∀ p ∈ (commentInsertionRules.lookup (GoKey.ty t)).getD [],
      notByteKey p.1 = true := by
  have h : ((commentInsertionRules.lookup (GoKey.ty t)).getD []).all
      (fun p => notByteKey p.1) = true := by
    cases t <;> decide
  exact fun p hp => by simpa using List.all_eq_true.mp h p hp

/-! ## The claims

`toHexB`'s recursion bottoms out through its `n < 16` guard rather than a
shrinking argument, so its equation cannot sit in a simp set (the untaken
branch would unfold forever); ground instances stand in for it. -/

theorem toHexB_at_0 : toHexB 0 = [48] := by
  rw [toHexB]
  simp +decide [hexDigitB]

theorem toHexB_at_1 : toHexB 1 = [49] := by
  rw [toHexB]
  simp +decide [hexDigitB]

theorem toHexB_at_65 : toHexB 65 = [52, 49] := by
  rw [toHexB, toHexB]
  simp +decide [hexDigitB]

/-- The raw bytes of `url("\1 a")`: a URI token whose string body holds the
escape `\1 ` (terminating space) followed by `a`. -/
def c1Input : List Nat := [117, 114, 108, 40, 34, 92, 49, 32, 97, 34, 41]

set_option maxRecDepth 1024 in
set_option maxHeartbeats 2000000 in
/-- C1: the round-trip property fails.  `url("\1 a")` tokenizes to the single
URI token with value `[0x01, 'a']` (no stop tokens, no comments), but
`escapeString` writes a hex escape with no terminating space, so the
rendered bytes are `url("\1a")`, which re-tokenize to the URI token with
value `[0x1A]`: `T(render_stream(T(B)))` is not `T(B)`. -/
theorem c1_round_trip_failure :
    tokenize c1Input = [tok .URI [1, 97]] ∧
    renderStream (dropComments (tokenize c1Input)) =
      [117, 114, 108, 40, 34, 92, 49, 97, 34, 41] ∧
    tokenize (renderStream (dropComments (tokenize c1Input))) =
      [tok .URI [26]] ∧
    dropComments (tokenize (renderStream (dropComments (tokenize c1Input)))) ≠
      dropComments (tokenize c1Input) := by
  have h1 : tokenize c1Input = [tok .URI [1, 97]] := by
    simp +decide [c1Input, tokenize, tokensOf, tokensFuel, normalize,
      normalizeFrom, next, consume, consumeLow, consumeUTok, consumeIdentish,
      consumeName, consumeEscapedCP, encodeRune, decodeRune, contIn,
      eqFoldUrl, consumeURL, skipWS, consumeURLBare, consumeStringFrom,
      consumeString, head0, head1, head2, validEscape, startsIdentifier,
      startsNumber, isWS, isNameCode, isNameStart, isHexDigit, isDigit,
      isNonPrintable, hexVal, parseHex, tok, eofToken, wsSawNL,
      consumeWhitespaceTok, dropZeroByte, urRun, consumeUnicodeRange, charStr,
      List.takeWhile, List.dropWhile]
  have h2 : renderStream (dropComments [tok .URI [1, 97]]) =
      [117, 114, 108, 40, 34, 92, 49, 97, 34, 41] := by
    simp +decide [dropComments, renderStream, renderStreamFrom, writeTokenTo,
      insertFlag, tokenKey, commentInsertionRules, commentInsertionThruCDC,
      render, escapeString, escapeIdent, escapeTail, identHexEsc,
      needsHexEscaping, toHexB_at_1, hexDigitB, zeroToken, trimSuffixQuote,
      List.lookup, urValue, hex04, isNameCode, isNameStart, isDigit,
      isNonPrintable, head0, tok]
  have h3 : tokenize [117, 114, 108, 40, 34, 92, 49, 97, 34, 41] =
      [tok .URI [26]] := by
    simp +decide [tokenize, tokensOf, tokensFuel, normalize, normalizeFrom,
      next, consume, consumeLow, consumeUTok, consumeIdentish, consumeName,
      consumeEscapedCP, encodeRune, decodeRune, contIn, eqFoldUrl, consumeURL,
      skipWS, consumeURLBare, consumeStringFrom, consumeString, head0, head1,
      head2, validEscape, startsIdentifier, startsNumber, isWS, isNameCode,
      isNameStart, isHexDigit, isDigit, isNonPrintable, hexVal, parseHex, tok,
      eofToken, wsSawNL, consumeWhitespaceTok, dropZeroByte, urRun,
      consumeUnicodeRange, charStr, List.takeWhile, List.dropWhile]
  refine ⟨h1, ?_, ?_, ?_⟩
  · rw [h1]
    exact h2
  · rw [h1, h2]
    exact h3
  · rw [h1, h2, h3]
    decide

/-- C2: on every input, `Next` over the normalized bytes reaches `EOF` (after
at most as many calls as there are bytes), and once a call has returned
`EOF`, every later call returns `EOF` as well. -/
theorem c2_eof_reached_and_idempotent (B : List Nat) :
    (∀ k, (normalize B).length ≤ k → (tokenN k (normalize B)).ty = .EOF) ∧
    (∀ m k, m ≤ k → (tokenN m (normalize B)).ty = .EOF →
      (tokenN k (normalize B)).ty = .EOF) := by
  constructor
  · intro k hk
    rw [tokenN, stepN_reach k _ hk, next_nil]
    rfl
  · intro m k hmk hm
    obtain ⟨d, rfl⟩ : ∃ d, k = m + d := ⟨k - m, by omega⟩
    have hz : (0 : Nat) ∉ normalize B := normalize_no_zero false B
    have hnil : stepN m (normalize B) = [] :=
      next_eof_nil _ (stepN_no_zero m _ hz) hm
    rw [tokenN, stepN_add, hnil, stepN_nil, next_nil]
    rfl

/-- C3 (amended): every `UnicodeRange` token the dispatcher returns carries a
`unicodeRange` extra whose start and end each fit in 24 bits; the claim's
`start ≤ end` is refuted by `c3_counterexample` (the consumer never compares
the two values). -/
theorem c3_unicode_range_bounds (l : List Nat) (t : Token) (rest : List Nat)
    (h : consume l = some (t, rest)) (hty : t.ty = .UnicodeRange) :
    ∃ lo hi, t.extra = .unicodeRange lo hi ∧ lo ≤ 0xFFFFFF ∧ hi ≤ 0xFFFFFF := by
  rcases consume_facts l t rest h with ⟨rfl, _⟩ | hf
  · exact absurd hty (by decide)
  · exact hf.2.2.2 hty

/-- C3 witness: `u+41` yields the `UnicodeRange` token `U+0041` with extra
`unicodeRange 65 65`, both within 24 bits. -/
theorem c3_witness :
    ∃ lo hi,
      (Token.mk .UnicodeRange [85, 43, 48, 48, 52, 49]
        (.unicodeRange 65 65)).extra = .unicodeRange lo hi ∧
      lo ≤ 0xFFFFFF ∧ hi ≤ 0xFFFFFF :=
  c3_unicode_range_bounds [117, 43, 52, 49] _ [] (by
    simp +decide [consume, consumeLow, consumeUTok, consumeUnicodeRange,
      urRun, parseHex, hexVal, head0, head1, head2, isHexDigit, isDigit,
      hex04, urValue, toHexB_at_65, hexDigitB, tok, List.takeWhile]) rfl

/-- C3 counterexample: `u+1-0` yields a `UnicodeRange` token with start 1 and
end 0, so `start ≤ end` fails (the end is taken verbatim from the input). -/
theorem c3_counterexample :
    tokenize [117, 43, 49, 45, 48] =
      [Token.mk .UnicodeRange [85, 43, 48, 48, 48, 49, 45, 48, 48, 48, 48]
        (.unicodeRange 1 0)] ∧ ¬ (1 ≤ 0) := by
  constructor
  · simp +decide [tokenize, tokensOf, tokensFuel, normalize, normalizeFrom,
      next, consume, consumeLow, consumeUTok, consumeUnicodeRange, urRun,
      parseHex, hexVal, head0, head1, head2, isHexDigit, isDigit, hex04,
      urValue, toHexB_at_0, toHexB_at_1, hexDigitB, tok, eofToken,
      List.takeWhile]
  · decide

/-- C4 (amended): on the input holding a single backslash, the zero-filled
peek makes the lone backslash a "valid escape", so the first call returns an
`Ident` token whose value is the UTF-8 encoding of U+FFFD (the §4.3.7 EOF
case), not `BadEscape`, and the following call returns `EOF`. -/
theorem c4_lone_backslash_ident :
    next (normalize [92]) = (tok .Ident [0xEF, 0xBF, 0xBD], []) ∧
    (next (next (normalize [92])).2).1.ty = .EOF := by
  constructor <;>
    simp +decide [normalize, normalizeFrom, next, consume, consumeLow,
      consumeBackslashTok, validEscape, head0, head1, head2, consumeIdentish,
      consumeName, consumeEscapedCP, encodeRune, decodeRune, contIn,
      isNameCode, isNameStart, isHexDigit, isDigit, startsIdentifier,
      eqFoldUrl, consumeURL, tok, eofToken, List.takeWhile, List.dropWhile]

/-- C4 counterexample: the first token on a lone backslash is `Ident`, not
the `BadEscape` the claim states. -/
theorem c4_counterexample :
    (next (normalize [92])).1.ty = .Ident ∧
    (next (normalize [92])).1.ty ≠ .BadEscape := by
  constructor <;>
    simp +decide [normalize, normalizeFrom, next, consume, consumeLow,
      consumeBackslashTok, validEscape, head0, head1, head2, consumeIdentish,
      consumeName, consumeEscapedCP, encodeRune, decodeRune, contIn,
      isNameCode, isNameStart, isHexDigit, isDigit, startsIdentifier,
      eqFoldUrl, consumeURL, tok, List.takeWhile, List.dropWhile]

/-- C5 (amended): `BadString` and `BadURI` tokens carry a structured
`ParseError` extra; the premade `BadEscape` token carries no extra at all
(`c5_counterexample`), refuting the claim for that kind.  (`Error` tokens
only arise from reader failures, outside this pure model.) -/
theorem c5_parse_error_extra (l : List Nat) (t : Token) (rest : List Nat)
    (h : consume l = some (t, rest)) :
    (t.ty = .BadString → t.extra = .parseErr .BadString "unterminated string") ∧
    (t.ty = .BadURI → ∃ m, t.extra = .parseErr .BadURI m) := by
  rcases consume_facts l t rest h with ⟨rfl, _⟩ | hf
  · exact ⟨fun hc => absurd hc (by decide), fun hc => absurd hc (by decide)⟩
  · exact ⟨hf.2.1, hf.2.2.1⟩

/-- C5 witness: the unterminated-before-newline string `"` + LF yields a
`BadString` token whose extra is the `ParseError`. -/
theorem c5_witness :
    ((Token.mk .BadString [] (.parseErr .BadString "unterminated string")).ty
        = .BadString →
      (Token.mk .BadString [] (.parseErr .BadString "unterminated string")).extra
        = .parseErr .BadString "unterminated string") ∧
    ((Token.mk .BadString [] (.parseErr .BadString "unterminated string")).ty
        = .BadURI →
      ∃ m,
        (Token.mk .BadString [] (.parseErr .BadString "unterminated string")).extra
          = .parseErr .BadURI m) :=
  c5_parse_error_extra [34, 10] _ [10]
    (by simp +decide [consume, consumeString, consumeStringFrom, tok])

/-- C5 counterexample: backslash-newline yields the premade `BadEscape`
token, whose extra is nil — it carries no `ParseError`. -/
theorem c5_counterexample :
    (next (normalize [92, 10])).1.ty = .BadEscape ∧
    (next (normalize [92, 10])).1.extra = .none := by
  constructor <;>
    simp +decide [normalize, normalizeFrom, next, consume, consumeLow,
      consumeBackslashTok, validEscape, head0, head1, head2, tok]

/-- C6: no call of `Next` panics on any input: the dispatcher returns a token
in every state reachable from a normalized input (`none` models the one
panic call in the source, the `ParseInt` failure in
`consumeUnicodeRange`, and is never returned). -/
theorem c6_no_panic (B : List Nat) (k : Nat) :
    (consume (stepN k (normalize B))).isSome :=
  consume_isSome _

/-- C7: a string opened by `"` or `'` whose scan reaches end of input (no
closing delimiter, no unescaped newline) yields a `String` token — not
`BadString` — holding the accumulated body, and the following call returns
`EOF`. -/
theorem c7_unterminated_string_at_eof (d : Nat) (l : List Nat)
    (hd : d = 34 ∨ d = 39) (h : strHitsEOF d l = true) :
    next (d :: l) = (tok .String (strBody d l), []) ∧
    (next (next (d :: l)).2).1.ty = .EOF := by
  have h1 : next (d :: l) = (tok .String (strBody d l), []) := by
    have hc : consume (d :: l) = some (consumeString d l) := by
      rcases hd with rfl | rfl <;> rfl
    rw [next, hc, Option.getD_some, consumeString,
      consumeStringFrom_eof d [] l h]
    simp
  exact ⟨h1, by rw [h1]; rfl⟩

/-- C7 witness: `"ab` (no closing quote) yields the `String` token `ab`, then
`EOF`. -/
theorem c7_witness :
    next (34 :: [97, 98]) = (tok .String (strBody 34 [97, 98]), []) ∧
    (next (next (34 :: [97, 98])).2).1.ty = .EOF :=
  c7_unterminated_string_at_eof 34 [97, 98] (Or.inl rfl)
    (by simp [strHitsEOF, head0])

/-- C8: the input normalizer equals the spec's byte-for-byte description:
CRLF and lone CR become a single LF, each zero byte becomes EF BF BD, every
other byte is unchanged — and `tokenize` runs the scanner only on the
normalizer's output. -/
theorem c8_normalizer_as_specified (B : List Nat) :
    normalize B = normalizeSpec B ∧ tokenize B = tokensOf (normalizeSpec B) := by
  refine ⟨normalize_eq_spec B, ?_⟩
  rw [tokenize, normalize_eq_spec B]

/-- C9 (amended): after a previous token of kind `Ident`, `AtKeyword`,
`Hash`, or `Dimension`, the comment `/**/` is inserted exactly when the
current token's kind is one of the nine `TokenType`-keyed entries of the
row — `Ident`, `Function`, `URI`, `BadURI`, `Number`, `Percentage`,
`Dimension`, `UnicodeRange`, `CDC`.  The rows' `'-'` and `'('` entries are
keyed by untyped character constants (Go `rune`s), while a `Delim` token is
looked up by its first value byte (a Go `byte`), so those entries can never
match: `c9_counterexample` refutes the claimed insertion before `Delim`
`-`. -/
theorem c9_insertion_after_ident_like (prev curr : Token)
    (h : prev.ty = .Ident ∨ prev.ty = .AtKeyword ∨ prev.ty = .Hash ∨
      prev.ty = .Dimension) :
    insertFlag prev curr = true ↔
      curr.ty ∈ ([.Ident, .Function, .URI, .BadURI, .Number, .Percentage,
        .Dimension, .UnicodeRange, .CDC] : List TokenType) := by
  have hk : tokenKey prev = .ty prev.ty := by
    rw [tokenKey, if_neg]
    rcases h with h | h | h | h <;> simp [h]
  rw [insertFlag_eq, hk]
  by_cases hd : (curr.ty == .Delim) = true
  · have hD : curr.ty = .Delim := by simpa using hd
    have hck : tokenKey curr = .byte (head0 curr.value) := by
      rw [tokenKey, if_pos hd]
    rw [hck, hD, lookup_byte_none _ (rules_row_no_byte_keys prev.ty) _]
    decide
  · have hck : tokenKey curr = .ty curr.ty := by
      rw [tokenKey, if_neg hd]
    rw [hck]
    generalize curr.ty = cty at hd ⊢
    rcases h with h | h | h | h <;> rw [h] <;> cases cty <;> revert hd <;>
      decide

/-- C9 witness: after an `Ident`, a `Number` token gets `/**/` in front. -/
theorem c9_witness :
    insertFlag (tok .Ident [97]) (tok .Number [49]) = true :=
  (c9_insertion_after_ident_like (tok .Ident [97]) (tok .Number [49])
    (Or.inl rfl)).mpr (by decide)

/-- C9 counterexample: after an `Ident`, no comment is inserted before the
`Delim` token `-`, although the claim's table lists that pair. -/
theorem c9_counterexample :
    insertFlag (tok .Ident [97]) (tok .Delim [45]) = false ∧
    (writeTokenTo (tok .Ident [97]) (tok .Delim [45])).1 = [45] := by
  decide

/-- C10: a freshly constructed renderer never prepends `/**/`: its
`lastToken` is the zero-value token, whose kind `Error` has no row in the
insertion table, so the first write is exactly the stateless render. -/
theorem c10_first_write_is_plain_render (t : Token) :
    (writeTokenTo zeroToken t).1 = render t := by
  have hz : insertFlag zeroToken t = false := by
    rw [insertFlag_eq]
    rw [show (commentInsertionRules.lookup (tokenKey zeroToken)).getD []
      = ([] : List (GoKey × Bool)) from rfl]
    rfl
  rw [writeTokenTo, hz]
  simp

end CssTok
